import Mathlib

/-!
Verification of the smeargol OWL decoder (internal/owl: owl.go and model.go).

The Go source is shallowly embedded below.  Machine integers (int64 UIDs)
are modelled as Int; they stay far below 2^63 so no wrap-around is modelled.
Go maps keyed by strings are modelled as association lists ordered by
insertion, which is faithful here because the source only ever inserts with
id = len(map)+1 and looks keys up.  The external gonum rdf package supplies
Term construction and the Value serialization; those parts are modelled from
its documented N-Triples representation (IRI as <text>, blank as _:label,
literal as a quoted text with optional ^^<datatype>), with literal text
escaped so that the representation is injective, matching the library
invariant that distinct terms have distinct Values.
-/

namespace Smeargol

/-- An XML qualified name, as Go encoding/xml Name: a namespace (Space)
and a local part (Local, here loc since local is reserved). -/
structure XmlName where
  space : String
  loc : String
deriving DecidableEq, Repr

/-- An XML attribute, as Go encoding/xml Attr. -/
structure Attr where
  name : XmlName
  value : String
deriving DecidableEq, Repr

/-- The content of an rdf.Term: IRI, literal (text plus datatype qualifier,
possibly empty) or blank node, as in the gonum rdf package. -/
inductive TermData where
  | iri (text : String)
  | lit (text qual : String)
  | blank (label : String)
deriving DecidableEq, Repr

/-- An rdf.Term: its content together with its UID field (int64 in Go,
zero until the decoder assigns it). -/
structure Term where
  data : TermData
  uid : Int
deriving DecidableEq, Repr

/-- rdf.Statement: subject, predicate, object. -/
structure Statement where
  subject : Term
  predicate : Term
  object : Term
deriving DecidableEq, Repr

/-- A term with UID 0, as produced by the mapper before identifier
assignment (mustTerm over the rdf constructors). -/
def term0 (d : TermData) : Term := ⟨d, 0⟩

/-- Escape backslash and double quote, as in the N-Triples literal
serialization of the external rdf library. -/
def escChars : List Char → List Char
  | [] => []
  | c :: cs => if c = '"' ∨ c = '\\' then '\\' :: c :: escChars cs else c :: escChars cs

/-- Modelled from the external gonum rdf package: the Value string of a
term, i.e. its N-Triples text.  The decoder interns and keys its identifier
table by this string. -/
def termValue : TermData → String
  | .iri t => "<" ++ t ++ ">"
  | .blank l => "_:" ++ l
  | .lit t q =>
    if q = "" then "\"" ++ String.mk (escChars t.data) ++ "\""
    else "\"" ++ String.mk (escChars t.data) ++ "\"^^<" ++ q ++ ">"

/-- store.intern from owl.go: the store after interning s (the returned
canonical string is equal to s, so only the store update is modelled;
the empty string is never stored). -/
def intern (st : List String) (s : String) : List String :=
  if s = "" then st else if s ∈ st then st else s :: st

/-- Decoder.idFor from owl.go: look the string up in the identifier table,
assigning the next free identifier (table size + 1) on first sight.  The
Go map is modelled as the list of keys in insertion order: the identifier
stored for a key is its insertion position + 1. -/
def idFor (ids : List String) (s : String) : Int × List String :=
  if s ∈ ids then ((ids.indexOf s : Int) + 1, ids)
  else ((ids.length : Int) + 1, ids ++ [s])

/-- The session state of a Decoder from owl.go: collected namespace table
(none while not yet seen), string intern table, identifier table, pending
statement buffer (the curr index plus slice is modelled as the queue of
statements not yet taken), and the seen identifier triples. -/
structure DecState where
  namespaces : Option (List Attr)
  strings : List String
  ids : List String
  buf : List Statement
  seen : List (Int × Int × Int)
deriving DecidableEq, Repr

/-- The identifier triple of a statement, as computed in Decoder.Unmarshal. -/
def stmtTriple (s : Statement) : Int × Int × Int :=
  (s.subject.uid, s.predicate.uid, s.object.uid)

/-- The interning and identifier assignment performed on one statement by
Decoder.Unmarshal: intern subject, predicate then object values, then
assign UIDs to subject, object then predicate (the source order). -/
def assignStmt (st : DecState) (s : Statement) : Statement × DecState :=
  let str1 := intern st.strings (termValue s.subject.data)
  let str2 := intern str1 (termValue s.predicate.data)
  let str3 := intern str2 (termValue s.object.data)
  let r1 := idFor st.ids (termValue s.subject.data)
  let r2 := idFor r1.2 (termValue s.object.data)
  let r3 := idFor r2.2 (termValue s.predicate.data)
  (⟨⟨s.subject.data, r1.1⟩, ⟨s.predicate.data, r3.1⟩, ⟨s.object.data, r2.1⟩⟩,
   { st with strings := str3, ids := r3.2 })

/-- Decoder.Unmarshal iterated to exhaustion over the stream of mapper
statements: each buffered statement has identifiers assigned; a statement
whose identifier triple was already seen is silently discarded, otherwise
its triple is recorded and the statement is emitted. -/
def unmarshalAll (st : DecState) : List Statement → List Statement × DecState
  | [] => ([], st)
  | s :: rest =>
    let r := assignStmt st s
    let tr := stmtTriple r.1
    if tr ∈ r.2.seen then unmarshalAll r.2 rest
    else
      let res := unmarshalAll { r.2 with seen := tr :: r.2.seen } rest
      (r.1 :: res.1, res.2)

/-! ## The OWL-to-RDF mapper, from model.go -/

/-- The rdfType package variable of model.go. -/
def rdfType : Term := term0 (.iri "http://www.w3.org/1999/02/22-rdf-syntax-ns#type")

/-- The rdfFirst package variable of model.go. -/
def rdfFirst : Term := term0 (.iri "http://www.w3.org/1999/02/22-rdf-syntax-ns#first")

/-- The rdfRest package variable of model.go. -/
def rdfRest : Term := term0 (.iri "http://www.w3.org/1999/02/22-rdf-syntax-ns#rest")

/-- The rdfNil package variable of model.go. -/
def rdfNil : Term := term0 (.iri "http://www.w3.org/1999/02/22-rdf-syntax-ns#nil")

/-- The firstName package variable of model.go. -/
def firstName : XmlName := ⟨"http://www.w3.org/1999/02/22-rdf-syntax-ns#", "first"⟩

/-- The rdf.Kind values that rdfDataType.claim can return (the external
package also has a Blank kind, never produced by claim). -/
inductive Kind where
  | invalid
  | iri
  | lit
deriving DecidableEq, Repr

/-- rdfDataType from model.go: a scalar child element with optional
resource and datatype attributes and character data.  The source struct
also declares a Restriction field that only absorbs XML content during
decoding and is never read by any collect method; it is omitted here. -/
structure RdfDataType where
  name : XmlName
  resource : String
  text : String
  datatype : String
deriving DecidableEq, Repr

/-- The Go zero value of rdfDataType (an absent child). -/
def RdfDataType.empty : RdfDataType := ⟨⟨"", ""⟩, "", "", ""⟩

/-- strings.TrimSpace from the Go standard library, on the char list
(every use in the source only tests emptiness of the result). -/
def trimSpace (s : String) : String :=
  ⟨((s.data.dropWhile Char.isWhitespace).reverse.dropWhile Char.isWhitespace).reverse⟩

/-- rdfDataType.claim from model.go: a non-blank resource yields an IRI
claim, otherwise a non-blank datatype yields a literal claim, otherwise
the claim is invalid. -/
def RdfDataType.claim (r : RdfDataType) : String × String × String × Kind :=
  if trimSpace r.resource ≠ "" then (r.name.space ++ r.name.loc, r.resource, "", .iri)
  else if trimSpace r.datatype ≠ "" then (r.name.space ++ r.name.loc, r.text, r.datatype, .lit)
  else ("", "", "", .invalid)

/-- The object term built from a claim by the switch on the claim kind that
each collect method of model.go performs (none for an invalid claim). -/
def claimObj : String × String × String × Kind → Option TermData
  | (_, text, qual, k) =>
    match k with
    | .invalid => none
    | .iri => some (.iri text)
    | .lit => some (.lit text qual)

/-- The statement-emission pattern shared by the collect methods: an
invalid claim emits nothing, otherwise one statement with the claim
predicate and the claim object under the given subject. -/
def emitClaim (subj : Term) (c : String × String × String × Kind) : List Statement :=
  match claimObj c with
  | none => []
  | some o => [⟨subj, term0 (.iri c.1), term0 o⟩]

/-- The scalar-claim emission with subject built from the enclosing
element's about IRI. -/
def claimStmts (about : String) (r : RdfDataType) : List Statement :=
  emitClaim (term0 (.iri about)) r.claim

/-- The reflect-driven collect function of model.go, made explicit: every
field of rdfDataType-slice type is scanned in declaration order and each
entry with a valid claim emits one statement. -/
def collectFields (about : String) (fields : List (List RdfDataType)) : List Statement :=
  fields.flatMap (fun l => l.flatMap (claimStmts about))

/-- labelType from model.go. -/
def labelType (about : String) (name : XmlName) : List Statement :=
  [⟨term0 (.iri about), rdfType, term0 (.iri (name.space ++ name.loc))⟩]

/-- blankLabel from model.go hashes the concatenation of its parts (the
hash is Reset before use, so each call is a pure function of the parts)
and returns the hex digest.  The MD5-and-hex step is the parameter hsh,
applied to the concatenated parts. -/
def blankLabel (hsh : String → String) (parts : List String) : String :=
  hsh (String.join parts)

/-- Modelled from the external gonum rdf package: NewIRITerm succeeds only
for text shaped like an IRI, in particular carrying the scheme separator;
restriction.collect falls back to a blank term when it fails. -/
def isValidIRI (s : String) : Bool := s.data.contains ':'

/-- restriction from model.go. -/
structure Restriction where
  name : XmlName
  onProperty : RdfDataType
  someValuesFrom : RdfDataType
deriving DecidableEq, Repr

/-- restriction.collect from model.go: the subject is the about IRI when
it parses as an IRI and otherwise a blank node of that label; a blank node
is allocated from the hash of the element name, the about anchor, the
parent name and the onProperty/someValuesFrom values; the link and type
statements are followed by the scalar claims for onProperty and
someValuesFrom with the blank subject. -/
def Restriction.collect (hsh : String → String) (r : Restriction) (about : String)
    (inn : XmlName) : List Statement :=
  let subj : Term := if isValidIRI about then term0 (.iri about) else term0 (.blank about)
  let parent := term0 (.iri (inn.space ++ inn.loc))
  let typ := term0 (.iri (r.name.space ++ r.name.loc))
  let label := blankLabel hsh [r.name.space, r.name.loc, about, inn.space, inn.loc,
      r.onProperty.resource, r.onProperty.text, r.someValuesFrom.resource, r.someValuesFrom.text]
  let blank := term0 (.blank label)
  [⟨subj, parent, blank⟩, ⟨blank, rdfType, typ⟩]
    ++ emitClaim blank r.onProperty.claim ++ emitClaim blank r.someValuesFrom.claim

/-- restrictions.collect from model.go. -/
def Restriction.collectList (hsh : String → String) (l : List Restriction) (about : String)
    (inn : XmlName) : List Statement :=
  l.flatMap (fun r => r.collect hsh about inn)

/-- subClassOf from model.go. -/
structure SubClassOf where
  name : XmlName
  resource : String
  restriction : List Restriction
deriving DecidableEq, Repr

/-- subClassOf.claim from model.go (no TrimSpace here: the empty check is
on the raw resource string). -/
def SubClassOf.claim (s : SubClassOf) : String × String × String × Kind :=
  if s.resource = "" then ("", "", "", .invalid)
  else (s.name.space ++ s.name.loc, s.resource, "", .iri)

/-- subClassOfs.collect from model.go. -/
def SubClassOf.collectList (hsh : String → String) (l : List SubClassOf)
    (about : String) : List Statement :=
  l.flatMap (fun c =>
    emitClaim (term0 (.iri about)) c.claim ++ Restriction.collectList hsh c.restriction about c.name)

/-- description from model.go. -/
structure Description where
  name : XmlName
  about : String
deriving DecidableEq, Repr

/-- description.claim from model.go. -/
def Description.claim (d : Description) : String × String × String × Kind :=
  if d.about = "" then ("", "", "", .invalid)
  else (d.name.space ++ d.name.loc, d.about, "", .iri)

/-- intersectionOf from model.go. -/
structure IntersectionOf where
  name : XmlName
  parseType : String
  description : List Description
  restriction : List Restriction
deriving DecidableEq, Repr

/-- The Class member of equivalentClass from model.go (intersectClass). -/
structure IntersectClass where
  name : XmlName
  intersectionOf : List IntersectionOf
deriving DecidableEq, Repr

/-- equivalentClass from model.go. -/
structure EquivalentClass where
  name : XmlName
  classes : List IntersectClass
deriving DecidableEq, Repr

/-- The description loop of equivalentClasses.collect (model.go lines
322-366): for each description, the running cell label iLabel (whose blank
node is iBlank) gains an rdf.first statement when the description claim is
valid, then the label is re-hashed and an rdf.rest statement to the next
cell always follows; a restriction at the same index is expanded inline
against the new cell under the rdf.first predicate; finally one more
rdf.rest statement is emitted, to a further re-hashed cell when more
descriptions remain and to rdf.nil on the last description. -/
def interLoop (hsh : String → String) : String → String → List Description →
    List Restriction → List Statement
  | _, _, [], _ => []
  | iLabel, dLabel, d :: ds, rs =>
    let dLabel2 := blankLabel hsh [d.name.space, d.name.loc, iLabel, d.about, dLabel]
    let firstPart : List Statement :=
      match claimObj d.claim with
      | none => []
      | some o => [⟨term0 (.blank iLabel), rdfFirst, term0 o⟩]
    let iLabel2 := blankLabel hsh [iLabel]
    let rest1 : Statement := ⟨term0 (.blank iLabel), rdfRest, term0 (.blank iLabel2)⟩
    let restrPart : List Statement :=
      match rs with
      | [] => []
      | r :: _ => r.collect hsh iLabel2 firstName
    match ds with
    | [] =>
      firstPart ++ [rest1] ++ restrPart
        ++ [⟨term0 (.blank iLabel2), rdfRest, rdfNil⟩]
    | _ :: _ =>
      let iLabel3 := blankLabel hsh [iLabel2]
      firstPart ++ [rest1] ++ restrPart
        ++ [⟨term0 (.blank iLabel2), rdfRest, term0 (.blank iLabel3)⟩]
        ++ interLoop hsh iLabel3 dLabel2 ds rs.tail

/-- The per-intersectionOf statements of equivalentClasses.collect: the
first intersectionOf of a Class also emits the type statement and the
intersectionOf link from the equivalentClass blank node. -/
def intersectionOfStmts (hsh : String → String) (inn : XmlName) (ecLabel cLabel : String)
    (first : Bool) (io : IntersectionOf) : List Statement :=
  let iLabel := blankLabel hsh [io.name.space, io.name.loc, cLabel, io.parseType]
  (if first then
    [⟨term0 (.blank ecLabel), rdfType, term0 (.iri (inn.space ++ inn.loc))⟩,
     ⟨term0 (.blank ecLabel), term0 (.iri (io.name.space ++ io.name.loc)), term0 (.blank iLabel)⟩]
   else [])
    ++ interLoop hsh iLabel "" io.description io.restriction

/-- The indexed loop over the intersectionOf entries of one Class member
(only the entry at index 0 emits the type and link statements). -/
def intersectionOfList (hsh : String → String) (inn : XmlName) (ecLabel cLabel : String) :
    Bool → List IntersectionOf → List Statement
  | _, [] => []
  | first, io :: rest =>
    intersectionOfStmts hsh inn ecLabel cLabel first io
      ++ intersectionOfList hsh inn ecLabel cLabel false rest

/-- The per-Class statements of equivalentClasses.collect (model.go lines
294-368): a type statement on the equivalentClass blank node, then the
intersectionOf entries. -/
def intersectClassStmts (hsh : String → String) (inn : XmlName) (ecLabel : String)
    (cls : IntersectClass) : List Statement :=
  let cLabel := blankLabel hsh [cls.name.space, cls.name.loc, ecLabel]
  ⟨term0 (.blank ecLabel), rdfType, term0 (.iri (inn.space ++ inn.loc))⟩
    :: intersectionOfList hsh inn ecLabel cLabel true cls.intersectionOf

/-- The loop over the equivalentClass entries: the running label chain is
re-hashed per entry, each entry emits its link statement and its Class
members. -/
def ecLoop (hsh : String → String) (about : String) (inn : XmlName) :
    String → List EquivalentClass → List Statement
  | _, [] => []
  | ecLabel, ec :: rest =>
    let ecLabel2 := blankLabel hsh
      [ec.name.space, ec.name.loc, about, inn.space, inn.loc, ecLabel]
    ⟨term0 (.iri about), term0 (.iri (ec.name.space ++ ec.name.loc)), term0 (.blank ecLabel2)⟩
      :: (ec.classes.flatMap (intersectClassStmts hsh inn ecLabel2)
        ++ ecLoop hsh about inn ecLabel2 rest)

/-- equivalentClasses.collect from model.go: nothing for an absent list,
otherwise the enclosing type statement followed by the entries. -/
def equivalentClassesCollect (hsh : String → String) (l : List EquivalentClass)
    (about : String) (inn : XmlName) : List Statement :=
  match l with
  | [] => []
  | _ =>
    ⟨term0 (.iri about), rdfType, term0 (.iri (inn.space ++ inn.loc))⟩
      :: ecLoop hsh about inn "" l

/-- propertyChainAxiom from model.go. -/
structure PropertyChainAxiom where
  name : XmlName
  parseType : String
  description : List Description
deriving DecidableEq, Repr

/-- The description loop of propertyChainAxiom.collect: each member emits
an rdf.first statement (the object is the member IRI, built
unconditionally in the source), then an rdf.rest statement to a re-hashed
blank node, or to rdf.nil for the last member. -/
def pcaLoop (hsh : String → String) : String → List Description → List Statement
  | _, [] => []
  | label, d :: ds =>
    let firstStmt : Statement := ⟨term0 (.blank label), rdfFirst, term0 (.iri d.about)⟩
    match ds with
    | [] => [firstStmt, ⟨term0 (.blank label), rdfRest, rdfNil⟩]
    | _ :: _ =>
      let label2 := blankLabel hsh [label]
      firstStmt :: ⟨term0 (.blank label), rdfRest, term0 (.blank label2)⟩ :: pcaLoop hsh label2 ds

/-- propertyChainAxiom.collect from model.go: nothing for a nil receiver,
otherwise the head blank node (hash of the about anchor and the element
qualified name) is linked from the about IRI and the members follow as an
rdf list. -/
def PropertyChainAxiom.collect (hsh : String → String) (c : Option PropertyChainAxiom)
    (about : String) : List Statement :=
  match c with
  | none => []
  | some c =>
    let label := blankLabel hsh [about, c.name.space ++ c.name.loc]
    ⟨term0 (.iri about), term0 (.iri (c.name.space ++ c.name.loc)), term0 (.blank label)⟩
      :: pcaLoop hsh label c.description

/-- class from model.go (class is reserved in Lean). -/
structure ClassElem where
  name : XmlName
  about : String
  id : RdfDataType
  hasBroadSynonym : List RdfDataType
  comment : List RdfDataType
  consider : List RdfDataType
  createdBy : List RdfDataType
  creationDate : List RdfDataType
  hasDbXref : List RdfDataType
  deprecated : List RdfDataType
  disjointWith : List RdfDataType
  hasExactSynonym : List RdfDataType
  hasAlternativeID : List RdfDataType
  hasOBONamespace : List RdfDataType
  iao0000115 : List RdfDataType
  iao0000233 : List RdfDataType
  iao0000589 : List RdfDataType
  iao0100001 : List RdfDataType
  inSubSet : List RdfDataType
  label : List RdfDataType
  hasNarrowSynonym : List RdfDataType
  hasRelatedSynonym : List RdfDataType
  ro0002161 : List RdfDataType
  equivalentClass : List EquivalentClass
  subClassOf : List SubClassOf
deriving DecidableEq, Repr

/-- The rdfDataType-slice fields of class in Go declaration order, the
order the reflect-driven collect visits them. -/
def ClassElem.scalarFields (c : ClassElem) : List (List RdfDataType) :=
  [c.hasBroadSynonym, c.comment, c.consider, c.createdBy, c.creationDate, c.hasDbXref,
   c.deprecated, c.disjointWith, c.hasExactSynonym, c.hasAlternativeID, c.hasOBONamespace,
   c.iao0000115, c.iao0000233, c.iao0000589, c.iao0100001, c.inSubSet, c.label,
   c.hasNarrowSynonym, c.hasRelatedSynonym, c.ro0002161]

/-- class.collect from model.go: the ID claim, the type statement, the
scalar claims, then subClassOf and equivalentClass. -/
def ClassElem.collect (hsh : String → String) (c : ClassElem) : List Statement :=
  emitClaim (term0 (.iri c.about)) c.id.claim
    ++ labelType c.about c.name
    ++ collectFields c.about c.scalarFields
    ++ SubClassOf.collectList hsh c.subClassOf c.about
    ++ equivalentClassesCollect hsh c.equivalentClass c.about c.name

/-- annotationProperty from model.go. -/
structure AnnotationProperty where
  name : XmlName
  about : String
  id : RdfDataType
  comment : List RdfDataType
  hasDbXref : List RdfDataType
  hasOBONamespace : List RdfDataType
  hasScope : List RdfDataType
  isClassLevel : List RdfDataType
  isMetadataTag : List RdfDataType
  label : List RdfDataType
  shorthand : List RdfDataType
  subPropertyOf : List RdfDataType
deriving DecidableEq, Repr

/-- annotationProperty.collect from model.go. -/
def AnnotationProperty.collect (a : AnnotationProperty) : List Statement :=
  emitClaim (term0 (.iri a.about)) a.id.claim
    ++ labelType a.about a.name
    ++ collectFields a.about
      [a.comment, a.hasDbXref, a.hasOBONamespace, a.hasScope, a.isClassLevel,
       a.isMetadataTag, a.label, a.shorthand, a.subPropertyOf]

/-- axiom from model.go (axiom is reserved here). -/
structure AxiomElem where
  name : XmlName
  source : RdfDataType
  property : RdfDataType
  target : RdfDataType
  comment : List RdfDataType
  hasDbXref : List RdfDataType
  label : List RdfDataType
deriving DecidableEq, Repr

/-- The label/xref/comment loop of axiom.collect; an invalid claim kind
panics in the source, modelled as none. -/
def axiomLinks (blank : Term) : List RdfDataType → Option (List Statement)
  | [] => some []
  | p :: ps =>
    match claimObj p.claim with
    | none => none
    | some o =>
      (axiomLinks blank ps).map
        (fun rest => (⟨blank, term0 (.iri (p.name.space ++ p.name.loc)), term0 o⟩ : Statement) :: rest)

/-- axiom.collect from model.go: the reifying blank node is hashed from
the source, property and target values; the type, source, property and
target statements are followed by the label, xref and comment links.
An invalid target claim kind panics in the source (none here). -/
def AxiomElem.collect (hsh : String → String) (a : AxiomElem) : Option (List Statement) :=
  let label := blankLabel hsh
    [a.source.resource, a.property.resource, a.target.resource, a.target.text, a.target.datatype]
  let blank := term0 (.blank label)
  match claimObj a.target.claim with
  | none => none
  | some tgt =>
    match axiomLinks blank (a.label ++ a.hasDbXref ++ a.comment) with
    | none => none
    | some links =>
      some ([⟨blank, rdfType, term0 (.iri (a.name.space ++ a.name.loc))⟩,
             ⟨blank, term0 (.iri (a.source.name.space ++ a.source.name.loc)),
               term0 (.iri a.source.resource)⟩,
             ⟨blank, term0 (.iri (a.property.name.space ++ a.property.name.loc)),
               term0 (.iri a.property.resource)⟩,
             ⟨blank, term0 (.iri (a.target.name.space ++ a.target.name.loc)), term0 tgt⟩]
        ++ links)

/-- objectProperty from model.go. -/
structure ObjectPropertyElem where
  name : XmlName
  about : String
  id : RdfDataType
  hasDbXref : List RdfDataType
  hasOBONamespace : List RdfDataType
  inverseOf : List RdfDataType
  label : List RdfDataType
  shorthand : List RdfDataType
  subPropertyOf : List RdfDataType
  type : List RdfDataType
  propertyChainAxiom : Option PropertyChainAxiom
deriving DecidableEq, Repr

/-- objectProperty.collect from model.go. -/
def ObjectPropertyElem.collect (hsh : String → String) (o : ObjectPropertyElem) :
    List Statement :=
  emitClaim (term0 (.iri o.about)) o.id.claim
    ++ labelType o.about o.name
    ++ collectFields o.about
      [o.hasDbXref, o.hasOBONamespace, o.inverseOf, o.label, o.shorthand,
       o.subPropertyOf, o.type]
    ++ PropertyChainAxiom.collect hsh o.propertyChainAxiom o.about

/-- ontology from model.go. -/
structure Ontology where
  name : XmlName
  about : String
  defaultNamespace : List RdfDataType
  description : List RdfDataType
  hasOBOFormatVersion : List RdfDataType
  license : List RdfDataType
  title : List RdfDataType
  versionIRI : List RdfDataType
deriving DecidableEq, Repr

/-- ontology.collect from model.go. -/
def Ontology.collect (o : Ontology) : List Statement :=
  labelType o.about o.name
    ++ collectFields o.about
      [o.defaultNamespace, o.description, o.hasOBOFormatVersion, o.license, o.title, o.versionIRI]

/-! ## The tokenizer/dispatcher, from owl.go -/

/-- The decoded payload of a top-level start element: the struct that
xml.DecodeElement fills for the recognized kinds, or the attribute list of
the RDF root element (read directly off the start token in the source). -/
inductive Elem where
  | ann (a : AnnotationProperty)
  | axm (a : AxiomElem)
  | cls (c : ClassElem)
  | obj (o : ObjectPropertyElem)
  | ont (o : Ontology)
  | rdfRoot (attrs : List Attr)
deriving DecidableEq, Repr

/-- One XML token as seen by fillBuffer. -/
inductive Token where
  | start (name : XmlName) (elem : Elem)
  | endElement
  | chardata
  | comment
  | directive
  | procInst
deriving DecidableEq, Repr

/-- The renaming of attributes in the reserved xml namespace performed by
the RDF branch of fillBuffer. -/
def renameXMLNS (a : Attr) : Attr :=
  if a.name.space = "http://www.w3.org/XML/1998/namespace"
  then { a with name := ⟨"xml", a.name.loc⟩ } else a

/-- One step of an insertion sort by descending value length, modelling
sort.Sort(byLength(...)) from owl.go (the source comparator orders longer
values first; ties are in unspecified order there, stable here). -/
def insertByLen (a : Attr) : List Attr → List Attr
  | [] => [a]
  | b :: bs => if a.value.length ≤ b.value.length then b :: insertByLen a bs else a :: b :: bs

/-- The namespace table sort of fillBuffer. -/
def sortByLenDesc (l : List Attr) : List Attr := l.foldr insertByLen []

/-- The outcome of one fillBuffer call: a normal return with the updated
state, the io.EOF return (which releases the string table), the
unrecovered panic on an unrecognized top-level element (the recover in the
source re-raises it because the panic value is a plain string), the
unrecovered panic out of axiom.collect, or a decode error. -/
inductive FillOutcome where
  | ok (st : DecState)
  | eofSig (st : DecState)
  | fatal (name : XmlName)
  | panicked
  | decodeErr
deriving DecidableEq, Repr

/-- The dispatch of fillBuffer from owl.go on one token: recognized
top-level start elements append their collected statements to the buffer,
the RDF root collects (renamed, sorted) namespaces, non-element tokens are
skipped, and any other start element is fatal.  A payload that does not
match the dispatched name stands for an xml.DecodeElement error. -/
def fillBufferTok (hsh : String → String) (st : DecState) (t : Token) : FillOutcome :=
  match t with
  | .start name elem =>
    if name.loc = "AnnotationProperty" then
      match elem with
      | .ann a => .ok { st with buf := st.buf ++ a.collect }
      | _ => .decodeErr
    else if name.loc = "Axiom" then
      match elem with
      | .axm a =>
        match a.collect hsh with
        | some stmts => .ok { st with buf := st.buf ++ stmts }
        | none => .panicked
      | _ => .decodeErr
    else if name.loc = "Class" then
      match elem with
      | .cls c => .ok { st with buf := st.buf ++ c.collect hsh }
      | _ => .decodeErr
    else if name.loc = "ObjectProperty" then
      match elem with
      | .obj o => .ok { st with buf := st.buf ++ o.collect hsh }
      | _ => .decodeErr
    else if name.loc = "Ontology" then
      match elem with
      | .ont o => .ok { st with buf := st.buf ++ o.collect }
      | _ => .decodeErr
    else if name.loc = "RDF" then
      match elem with
      | .rdfRoot attrs =>
        let comb := st.namespaces.getD [] ++ attrs.map renameXMLNS
        .ok { st with namespaces := if comb.isEmpty then st.namespaces
                                    else some (sortByLenDesc comb) }
      | _ => .decodeErr
    else .fatal name
  | .endElement => .ok st
  | .chardata => .ok st
  | .comment => .ok st
  | .directive => .ok st
  | .procInst => .ok st

/-- fillBuffer from owl.go over a token stream: an exhausted stream is the
io.EOF signal (releasing the string table), otherwise one token is
consumed and dispatched. -/
def fillBuffer (hsh : String → String) (st : DecState) :
    List Token → FillOutcome × List Token
  | [] => (.eofSig { st with strings := [] }, [])
  | t :: rest => (fillBufferTok hsh st t, rest)

/-- The namespace-hunting loop shared by NewDecoder and Reset: fillBuffer
is pumped until the namespace table is non-nil; any error or end of
stream before that fails the construction or reset. -/
def collectNS (hsh : String → String) (st : DecState) :
    List Token → Option (DecState × List Token)
  | [] => none
  | t :: rest =>
    match fillBufferTok hsh st t with
    | .ok st2 => if st2.namespaces.isSome then some (st2, rest) else collectNS hsh st2 rest
    | _ => none

/-- Decoder.Reset from owl.go: the namespace table is dropped and
re-collected from the new stream, then the pending statement buffer is
cleared and a fresh string table installed; the identifier table and the
seen-triples set are not touched. -/
def reset (hsh : String → String) (st : DecState) (toks : List Token) :
    Option (DecState × List Token) :=
  match collectNS hsh { st with namespaces := none } toks with
  | none => none
  | some (st2, rest) => some ({ st2 with buf := [], strings := [] }, rest)

/-- strings.HasPrefix from the Go standard library, on the char lists. -/
def strPfx (s pre : String) : Bool := pre.data.isPrefixOf s.data

/-- strings.TrimPrefix from the Go standard library. -/
def strTrimPfx (s pre : String) : String :=
  if strPfx s pre then ⟨s.data.drop pre.data.length⟩ else s

/-- Decoder.compactIRI from owl.go: scan the namespace table (kept ordered
longest value first) and rewrite the IRI to prefix:suffix using the first
entry whose value is a textual prefix, unless the suffix is empty. -/
def compactIRI (nss : List Attr) (iri : String) : String × Bool :=
  match nss with
  | [] => (iri, false)
  | ns :: rest =>
    if strPfx iri ns.value then
      let suffix := strTrimPfx iri ns.value
      if suffix = "" then (iri, false)
      else (ns.name.loc ++ ":" ++ suffix, true)
    else compactIRI rest iri

/-- Decoder.compactTerm from owl.go: IRI terms have their text compacted,
literal terms with a non-empty datatype have the datatype compacted, blank
terms are returned unchanged; the UID is copied to the rebuilt term. -/
def compactTerm (nss : List Attr) (t : Term) : Term :=
  match t.data with
  | .iri text =>
    let r := compactIRI nss text
    if r.2 then ⟨.iri r.1, t.uid⟩ else t
  | .lit text qual =>
    if qual = "" then t
    else
      let r := compactIRI nss qual
      if r.2 then ⟨.lit text r.1, t.uid⟩ else t
  | .blank _ => t

/-- The per-statement compaction performed by Decoder.UnmarshalLocal. -/
def compactStmt (nss : List Attr) (s : Statement) : Statement :=
  ⟨compactTerm nss s.subject, compactTerm nss s.predicate, compactTerm nss s.object⟩

/-- Decoder.UnmarshalLocal iterated to exhaustion: each statement returned
by Unmarshal is compacted through the namespace table (which Unmarshal
never modifies). -/
def unmarshalLocalAll (st : DecState) (input : List Statement) : List Statement :=
  ((unmarshalAll st input).1).map (compactStmt (st.namespaces.getD []))

/-! ## Auxiliary definitions used by the verification -/

/-- The terms of a statement list, in emission order (subject, predicate,
object per statement). -/
def termsOf (l : List Statement) : List Term :=
  l.flatMap (fun s => [s.subject, s.predicate, s.object])

/-- The session state of a freshly constructed decoder (NewDecoder):
empty tables, with whatever namespace table construction collected. -/
def freshState (ns : Option (List Attr)) : DecState := ⟨ns, [], [], [], []⟩

/-- The specification of an assigned identifier: the term's value is in
the identifier table and its UID is the first-sight position based
from 1. -/
def uidSpec (ids : List String) (t : Term) : Prop :=
  termValue t.data ∈ ids ∧ t.uid = (ids.indexOf (termValue t.data) : Int) + 1

/-- Decode an escaped literal body: the body up to the first unescaped
quote, and the remainder after that quote. -/
def unq : List Char → Option (List Char × List Char)
  | [] => none
  | c :: rest =>
    if c = '"' then some ([], rest)
    else if c = '\\' then
      match rest with
      | [] => none
      | c2 :: rest2 => (unq rest2).map (fun p => (c2 :: p.1, p.2))
    else (unq rest).map (fun p => (c :: p.1, p.2))

/-- A partial inverse of the term serialization, on the character list. -/
def parseTermData : List Char → Option TermData
  | '<' :: rest =>
    if rest.getLast? = some '>' then some (.iri ⟨rest.dropLast⟩) else none
  | '_' :: ':' :: rest => some (.blank ⟨rest⟩)
  | '"' :: rest =>
    match unq rest with
    | none => none
    | some (t, r) =>
      match r with
      | [] => some (.lit ⟨t⟩ "")
      | '^' :: '^' :: '<' :: q =>
        if q.getLast? = some '>' then some (.lit ⟨t⟩ ⟨q.dropLast⟩) else none
      | _ => none
  | _ => none

/-- A partial inverse of termValue, witnessing its injectivity. -/
def parseTermValue (s : String) : Option TermData := parseTermData s.data

/-- The number of statements whose predicate has the given content. -/
def countPred (p : TermData) (l : List Statement) : Nat :=
  l.countP (fun s => s.predicate.data == p)

/-- The statements with the rdf rest predicate, in order. -/
def restStmts (l : List Statement) : List Statement :=
  l.filter (fun s => s.predicate.data == rdfRest.data)

/-- The object content of the last rdf rest statement. -/
def lastRestObj (l : List Statement) : Option TermData :=
  ((restStmts l).getLast?).map (fun s => s.object.data)

/-- The qualified name does not collide with the rdf first or rest IRIs
(true of every OWL vocabulary name appearing in the supported profile). -/
def chainSafe (n : XmlName) : Prop :=
  TermData.iri (n.space ++ n.loc) ≠ rdfFirst.data ∧ TermData.iri (n.space ++ n.loc) ≠ rdfRest.data

/-- Both scalar children of a restriction are chain safe. -/
def wellNamedR (r : Restriction) : Prop :=
  chainSafe r.onProperty.name ∧ chainSafe r.someValuesFrom.name

instance (n : XmlName) : Decidable (chainSafe n) := by
  unfold chainSafe; infer_instance

instance (r : Restriction) : Decidable (wellNamedR r) := by
  unfold wellNamedR; infer_instance

/-- The blank-node label allocated by restriction.collect. -/
def restrictionLabel (hsh : String → String) (r : Restriction) (about : String)
    (inn : XmlName) : String :=
  blankLabel hsh [r.name.space, r.name.loc, about, inn.space, inn.loc,
    r.onProperty.resource, r.onProperty.text, r.someValuesFrom.resource, r.someValuesFrom.text]

/-! ## Concrete inputs for witnesses and counterexamples -/

/-- A mapper statement (all UIDs zero). -/
def stmtOf (s p o : TermData) : Statement := ⟨term0 s, term0 p, term0 o⟩

/-- The identity function stands in for the MD5-and-hex step in concrete
runs. -/
def idh : String → String := fun s => s

/-- The OWL namespace. -/
def owlNS : String := "http://www.w3.org/2002/07/owl#"

/-- The RDF syntax namespace. -/
def rdfSynNS : String := "http://www.w3.org/1999/02/22-rdf-syntax-ns#"

/-- The RDF schema namespace. -/
def rdfsNS : String := "http://www.w3.org/2000/01/rdf-schema#"

/-- A three-statement input with a duplicate, for witnesses. -/
def wInput : List Statement :=
  [stmtOf (.iri "http://x/s") (.iri "http://x/p") (.iri "http://x/o"),
   stmtOf (.iri "http://x/s") (.iri "http://x/p") (.iri "http://x/o"),
   stmtOf (.iri "http://x/o") (.iri "http://x/p") (.lit "v" "http://x/t")]

/-- A concrete restriction with onProperty and someValuesFrom resources. -/
def wRestr : Restriction :=
  ⟨⟨owlNS, "Restriction"⟩, ⟨⟨owlNS, "onProperty"⟩, "http://x/p", "", ""⟩,
   ⟨⟨owlNS, "someValuesFrom"⟩, "http://x/v", "", ""⟩⟩

/-- A concrete list member description. -/
def wDescr : Description := ⟨⟨rdfSynNS, "Description"⟩, "http://x/A"⟩

/-- A concrete two-member property chain. -/
def wPCA : PropertyChainAxiom :=
  ⟨⟨owlNS, "propertyChainAxiom"⟩, "Collection",
   [⟨⟨rdfSynNS, "Description"⟩, "http://x/P1"⟩, ⟨⟨rdfSynNS, "Description"⟩, "http://x/P2"⟩]⟩

/-- An equivalentClass list holding one single-description intersection
with no inline restriction. -/
def cexEC : List EquivalentClass :=
  [⟨⟨owlNS, "equivalentClass"⟩,
    [⟨⟨owlNS, "Class"⟩, [⟨⟨owlNS, "intersectionOf"⟩, "Collection", [wDescr], []⟩]⟩]⟩]

/-- A Class element carrying a single label child and nothing else. -/
def soloLabelClass (clsName labelName : XmlName) (about text dt : String) : ClassElem :=
  { name := clsName, about := about, id := RdfDataType.empty,
    hasBroadSynonym := [], comment := [], consider := [], createdBy := [],
    creationDate := [], hasDbXref := [], deprecated := [], disjointWith := [],
    hasExactSynonym := [], hasAlternativeID := [], hasOBONamespace := [],
    iao0000115 := [], iao0000233 := [], iao0000589 := [], iao0100001 := [],
    inSubSet := [], label := [⟨labelName, "", text, dt⟩],
    hasNarrowSynonym := [], hasRelatedSynonym := [], ro0002161 := [],
    equivalentClass := [], subClassOf := [] }

/-- A namespace table on which compaction is not idempotent: the second
entry's value matches the compacted output of the first. -/
def badNss : List Attr := [⟨⟨"xmlns", "a"⟩, "http://x/"⟩, ⟨⟨"xmlns", "b"⟩, "a:"⟩]

/-- A namespace table of the well-behaved shape: every value starts with
http and no prefix name does. -/
def goodNss : List Attr :=
  [⟨⟨"xmlns", "go"⟩, "http://purl.obolibrary.org/obo/GO_"⟩,
   ⟨⟨"xmlns", "ob"⟩, "http://purl.obolibrary.org/obo/"⟩]

/-- A decoder state mid-session, for the reset witness. -/
def c9st : DecState :=
  ⟨none, ["x"], ["<http://x/s>", "<http://x/p>"],
   [stmtOf (.iri "http://x/a") (.iri "http://x/b") (.iri "http://x/c")], [(1, 2, 3)]⟩

/-- A new token stream opening with an RDF root carrying one namespace. -/
def c9toks : List Token :=
  [.start ⟨rdfSynNS, "RDF"⟩ (.rdfRoot [⟨⟨"xmlns", "go"⟩, "http://x/go#"⟩])]

/-- The state produced by resetting c9st onto c9toks. -/
def c9res : DecState :=
  ⟨some [⟨⟨"xmlns", "go"⟩, "http://x/go#"⟩], [], ["<http://x/s>", "<http://x/p>"], [], [(1, 2, 3)]⟩

/-! ## Injectivity of the term serialization -/

theorem unq_escChars (t s : List Char) : unq (escChars t ++ '"' :: s) = some (t, s) := by
  induction t with
  | nil =>
    show unq ('"' :: s) = some ([], s)
    unfold unq; simp
  | cons c cs ih =>
    by_cases hc : c = '"' ∨ c = '\\'
    · have h1 : escChars (c :: cs) = '\\' :: c :: escChars cs := by
        simp [escChars, hc]
      rw [h1]
      show unq ('\\' :: c :: (escChars cs ++ '"' :: s)) = some (c :: cs, s)
      rw [unq.eq_def]
      simp [ih]
    · have hq : c ≠ '"' := fun h => hc (Or.inl h)
      have hb : c ≠ '\\' := fun h => hc (Or.inr h)
      have h1 : escChars (c :: cs) = c :: escChars cs := by
        simp [escChars, hc]
      rw [h1]
      show unq (c :: (escChars cs ++ '"' :: s)) = some (c :: cs, s)
      rw [unq.eq_def]
      simp [hq, hb, ih]

theorem parse_termValue (d : TermData) : parseTermValue (termValue d) = some d := by
  cases d with
  | iri t =>
    have hd : ("<" ++ t ++ ">").data = '<' :: (t.data ++ ['>']) := by
      simp [String.data_append]
    simp [parseTermValue, termValue, hd, parseTermData, List.getLast?_concat,
      List.dropLast_concat]
  | blank l =>
    have hd : ("_:" ++ l).data = '_' :: ':' :: l.data := by
      simp [String.data_append]
    simp [parseTermValue, termValue, hd, parseTermData]
  | lit t q =>
    by_cases hq : q = ""
    · have hd : ("\"" ++ String.mk (escChars t.data) ++ "\"").data
          = '"' :: (escChars t.data ++ '"' :: []) := by
        simp [String.data_append]
      simp [parseTermValue, termValue, hq, hd, parseTermData, unq_escChars]
    · have hd : ("\"" ++ String.mk (escChars t.data) ++ "\"^^<" ++ q ++ ">").data
          = '"' :: (escChars t.data ++ '"' :: ('^' :: '^' :: '<' :: (q.data ++ ['>']))) := by
        simp [String.data_append]
      simp [parseTermValue, termValue, hq, hd, parseTermData, unq_escChars,
        List.getLast?_concat, List.dropLast_concat]

theorem termValue_inj {a b : TermData} (h : termValue a = termValue b) : a = b := by
  have h2 := congrArg parseTermValue h
  rw [parse_termValue, parse_termValue] at h2
  exact Option.some.inj h2

/-! ## Identifier table lemmas -/

theorem idFor_keys_sub (ids : List String) (s : String) :
    ∃ ext, (idFor ids s).2 = ids ++ ext := by
  by_cases hm : s ∈ ids
  · exact ⟨[], by simp [idFor, hm]⟩
  · exact ⟨[s], by simp [idFor, hm]⟩

theorem idFor_mem (ids : List String) (s : String) : s ∈ (idFor ids s).2 := by
  by_cases hm : s ∈ ids
  · simp [idFor, hm]
  · simp [idFor, hm]

theorem idFor_nodup (ids : List String) (s : String) (h : ids.Nodup) :
    (idFor ids s).2.Nodup := by
  by_cases hm : s ∈ ids
  · simpa [idFor, hm] using h
  · simp [idFor, hm, List.nodup_append, h]

theorem idFor_fst (ids : List String) (s : String) :
    (idFor ids s).1 = ((idFor ids s).2.indexOf s : Int) + 1 := by
  by_cases hm : s ∈ ids
  · simp [idFor, hm]
  · have h1 : (ids ++ [s]).indexOf s = ids.length + [s].indexOf s :=
      List.indexOf_append_of_not_mem hm
    have h2 : [s].indexOf s = 0 := List.indexOf_cons_self s []
    simp [idFor, hm, h1, h2]

theorem uidSpec_append (ids ext : List String) (t : Term) (h : uidSpec ids t) :
    uidSpec (ids ++ ext) t :=
  ⟨List.mem_append_left _ h.1, by rw [List.indexOf_append_of_mem h.1]; exact h.2⟩

theorem assignStmt_frame (st : DecState) (s : Statement) :
    (assignStmt st s).2.seen = st.seen ∧ (assignStmt st s).2.namespaces = st.namespaces
      ∧ (assignStmt st s).2.buf = st.buf := by
  simp [assignStmt]

theorem assignStmt_ids (st : DecState) (s : Statement) (h : st.ids.Nodup) :
    (assignStmt st s).2.ids.Nodup
    ∧ (∃ ext, (assignStmt st s).2.ids = st.ids ++ ext)
    ∧ uidSpec (assignStmt st s).2.ids (assignStmt st s).1.subject
    ∧ uidSpec (assignStmt st s).2.ids (assignStmt st s).1.predicate
    ∧ uidSpec (assignStmt st s).2.ids (assignStmt st s).1.object := by
  have vs := termValue s.subject.data
  simp only [assignStmt]
  constructor
  · exact idFor_nodup _ _ (idFor_nodup _ _ (idFor_nodup _ _ h))
  constructor
  · obtain ⟨e1, he1⟩ := idFor_keys_sub st.ids (termValue s.subject.data)
    obtain ⟨e2, he2⟩ := idFor_keys_sub (idFor st.ids (termValue s.subject.data)).2
      (termValue s.object.data)
    obtain ⟨e3, he3⟩ := idFor_keys_sub
      (idFor (idFor st.ids (termValue s.subject.data)).2 (termValue s.object.data)).2
      (termValue s.predicate.data)
    exact ⟨e1 ++ e2 ++ e3, by rw [he3, he2, he1]; simp [List.append_assoc]⟩
  constructor
  · -- subject: assigned first, stable through the two later idFor calls
    have h1 : uidSpec (idFor st.ids (termValue s.subject.data)).2
        ⟨s.subject.data, (idFor st.ids (termValue s.subject.data)).1⟩ :=
      ⟨idFor_mem _ _, idFor_fst _ _⟩
    obtain ⟨e2, he2⟩ := idFor_keys_sub (idFor st.ids (termValue s.subject.data)).2
      (termValue s.object.data)
    obtain ⟨e3, he3⟩ := idFor_keys_sub
      (idFor (idFor st.ids (termValue s.subject.data)).2 (termValue s.object.data)).2
      (termValue s.predicate.data)
    rw [he3, he2]
    rw [List.append_assoc]
    exact uidSpec_append _ _ _ h1
  constructor
  · exact ⟨idFor_mem _ _, idFor_fst _ _⟩
  · have h1 : uidSpec
        (idFor (idFor st.ids (termValue s.subject.data)).2 (termValue s.object.data)).2
        ⟨s.object.data,
          (idFor (idFor st.ids (termValue s.subject.data)).2 (termValue s.object.data)).1⟩ :=
      ⟨idFor_mem _ _, idFor_fst _ _⟩
    obtain ⟨e3, he3⟩ := idFor_keys_sub
      (idFor (idFor st.ids (termValue s.subject.data)).2 (termValue s.object.data)).2
      (termValue s.predicate.data)
    rw [he3]
    exact uidSpec_append _ _ _ h1

/-! ## Unmarshal invariants -/

theorem unmarshalAll_inv (input : List Statement) (st : DecState) (h : st.ids.Nodup) :
    (unmarshalAll st input).2.ids.Nodup
    ∧ (∃ ext, (unmarshalAll st input).2.ids = st.ids ++ ext)
    ∧ ∀ t ∈ termsOf (unmarshalAll st input).1, uidSpec (unmarshalAll st input).2.ids t := by
  induction input generalizing st with
  | nil =>
    refine ⟨h, ⟨[], by simp [unmarshalAll]⟩, ?_⟩
    simp [unmarshalAll, termsOf]
  | cons s rest ih =>
    obtain ⟨hnd, ⟨e1, he1⟩, hsu, hpr, hob⟩ := assignStmt_ids st s h
    by_cases hseen : stmtTriple (assignStmt st s).1 ∈ (assignStmt st s).2.seen
    · have hred : unmarshalAll st (s :: rest) = unmarshalAll (assignStmt st s).2 rest := by
        simp only [unmarshalAll, if_pos hseen]
      rw [hred]
      obtain ⟨nd2, ⟨e2, he2⟩, hu2⟩ := ih (assignStmt st s).2 hnd
      exact ⟨nd2, ⟨e1 ++ e2, by rw [he2, he1, List.append_assoc]⟩, hu2⟩
    · have hred : unmarshalAll st (s :: rest)
          = ((assignStmt st s).1 ::
              (unmarshalAll { (assignStmt st s).2 with
                seen := stmtTriple (assignStmt st s).1 :: (assignStmt st s).2.seen } rest).1,
             (unmarshalAll { (assignStmt st s).2 with
                seen := stmtTriple (assignStmt st s).1 :: (assignStmt st s).2.seen } rest).2) := by
        simp only [unmarshalAll, if_neg hseen]
      have hnd2 : ({ (assignStmt st s).2 with
          seen := stmtTriple (assignStmt st s).1 :: (assignStmt st s).2.seen } : DecState).ids.Nodup := hnd
      obtain ⟨nd2, ⟨e2, he2⟩, hu2⟩ := ih _ hnd2
      rw [hred]
      refine ⟨nd2, ⟨e1 ++ e2, by rw [he2]; simp only; rw [he1, List.append_assoc]⟩, ?_⟩
      intro t ht
      have htc : t = (assignStmt st s).1.subject ∨ t = (assignStmt st s).1.predicate
          ∨ t = (assignStmt st s).1.object
          ∨ t ∈ termsOf (unmarshalAll { (assignStmt st s).2 with
              seen := stmtTriple (assignStmt st s).1 :: (assignStmt st s).2.seen } rest).1 := by
        simpa [termsOf] using ht
      rcases htc with rfl | rfl | rfl | hmem
      · rw [he2]; exact uidSpec_append _ _ _ hsu
      · rw [he2]; exact uidSpec_append _ _ _ hpr
      · rw [he2]; exact uidSpec_append _ _ _ hob
      · exact hu2 t hmem

theorem unmarshalAll_notin_seen (input : List Statement) (st : DecState) :
    ∀ s ∈ (unmarshalAll st input).1, stmtTriple s ∉ st.seen := by
  induction input generalizing st with
  | nil => simp [unmarshalAll]
  | cons s rest ih =>
    have hfr : (assignStmt st s).2.seen = st.seen := (assignStmt_frame st s).1
    by_cases hseen : stmtTriple (assignStmt st s).1 ∈ (assignStmt st s).2.seen
    · have hred : unmarshalAll st (s :: rest) = unmarshalAll (assignStmt st s).2 rest := by
        simp only [unmarshalAll, if_pos hseen]
      rw [hred]
      intro x hx
      have := ih (assignStmt st s).2 x hx
      rwa [hfr] at this
    · have hred : (unmarshalAll st (s :: rest)).1
          = (assignStmt st s).1 ::
              (unmarshalAll { (assignStmt st s).2 with
                seen := stmtTriple (assignStmt st s).1 :: (assignStmt st s).2.seen } rest).1 := by
        simp only [unmarshalAll, if_neg hseen]
      rw [hred]
      intro x hx
      rcases List.mem_cons.mp hx with hx | hx
      · subst hx; rwa [hfr] at hseen
      · have hni := ih ({ (assignStmt st s).2 with
            seen := stmtTriple (assignStmt st s).1 :: (assignStmt st s).2.seen }) x hx
        intro hmem
        exact hni (by simp only; rw [hfr]; exact List.mem_cons_of_mem _ hmem)

/-! ## Claim C1 -/

/-- C1: across one decoding session no two statements returned by the pull
interface carry the same identifier triple, and every returned triple is
fresh with respect to the seen set the session started from: a buffered
statement whose triple is already seen is discarded, not returned. -/
theorem unmarshal_unique_triples (st : DecState) (input : List Statement) :
    ((unmarshalAll st input).1.Pairwise (fun a b => stmtTriple a ≠ stmtTriple b))
    ∧ (∀ s ∈ (unmarshalAll st input).1, stmtTriple s ∉ st.seen) := by
  refine ⟨?_, unmarshalAll_notin_seen input st⟩
  induction input generalizing st with
  | nil => simp [unmarshalAll]
  | cons s rest ih =>
    by_cases hseen : stmtTriple (assignStmt st s).1 ∈ (assignStmt st s).2.seen
    · have hred : unmarshalAll st (s :: rest) = unmarshalAll (assignStmt st s).2 rest := by
        simp only [unmarshalAll, if_pos hseen]
      rw [hred]
      exact ih _
    · have hred : (unmarshalAll st (s :: rest)).1
          = (assignStmt st s).1 ::
              (unmarshalAll { (assignStmt st s).2 with
                seen := stmtTriple (assignStmt st s).1 :: (assignStmt st s).2.seen } rest).1 := by
        simp only [unmarshalAll, if_neg hseen]
      rw [hred]
      refine List.Pairwise.cons ?_ (ih _)
      intro b hb
      have hni := unmarshalAll_notin_seen rest
        ({ (assignStmt st s).2 with
          seen := stmtTriple (assignStmt st s).1 :: (assignStmt st s).2.seen }) b hb
      intro hEq
      exact hni (by simp only; rw [← hEq]; exact List.mem_cons_self _ _)

/-- Witness for C1 at a concrete duplicate-bearing input. -/
theorem unmarshal_unique_triples_witness :
    stmtTriple ⟨⟨.iri "http://x/s", 1⟩, ⟨.iri "http://x/p", 3⟩, ⟨.iri "http://x/o", 2⟩⟩
      ∉ (freshState none).seen :=
  (unmarshal_unique_triples (freshState none) wInput).2
    ⟨⟨.iri "http://x/s", 1⟩, ⟨.iri "http://x/p", 3⟩, ⟨.iri "http://x/o", 2⟩⟩ (by decide)

/-! ## Claim C2 -/

/-- C2: in a fresh decoding session, every term of every yielded statement
receives the identifier equal to its value's first-sight position in the
single shared identifier table plus one (so identifiers start at 1 and
increase monotonically in first-sight order, across all three roles), and
two yielded terms carry the same identifier exactly when their content
(kind and text) is the same. -/
theorem unmarshal_identifier_assignment (ns : Option (List Attr)) (input : List Statement) :
    (∀ t ∈ termsOf (unmarshalAll (freshState ns) input).1,
      termValue t.data ∈ (unmarshalAll (freshState ns) input).2.ids
      ∧ t.uid = ((unmarshalAll (freshState ns) input).2.ids.indexOf (termValue t.data) : Int) + 1
      ∧ 1 ≤ t.uid)
    ∧ (∀ t ∈ termsOf (unmarshalAll (freshState ns) input).1,
       ∀ u ∈ termsOf (unmarshalAll (freshState ns) input).1,
       (t.data = u.data ↔ t.uid = u.uid)) := by
  obtain ⟨hnd, _, hu⟩ := unmarshalAll_inv input (freshState ns) (by simp [freshState])
  constructor
  · intro t ht
    obtain ⟨hm, he⟩ := hu t ht
    refine ⟨hm, he, ?_⟩
    rw [he]
    have : (0 : Int) ≤ ((unmarshalAll (freshState ns) input).2.ids.indexOf (termValue t.data) : Int) :=
      Int.ofNat_nonneg _
    omega
  · intro t ht u hU
    obtain ⟨hmt, het⟩ := hu t ht
    obtain ⟨hmu, heu⟩ := hu u hU
    constructor
    · intro hd
      rw [het, heu, hd]
    · intro hid
      rw [het, heu] at hid
      have hn : (unmarshalAll (freshState ns) input).2.ids.indexOf (termValue t.data)
          = (unmarshalAll (freshState ns) input).2.ids.indexOf (termValue u.data) := by omega
      have hvv : termValue t.data = termValue u.data := (List.indexOf_inj hmt hmu).mp hn
      exact termValue_inj hvv

/-- Witness for C2: two terms of the concrete session output, with
distinct content and distinct identifiers. -/
theorem unmarshal_identifier_assignment_witness :
    ((⟨.iri "http://x/s", 1⟩ : Term).data = (⟨.lit "v" "http://x/t", 4⟩ : Term).data
      ↔ (⟨.iri "http://x/s", 1⟩ : Term).uid = (⟨.lit "v" "http://x/t", 4⟩ : Term).uid) :=
  (unmarshal_identifier_assignment none wInput).2
    ⟨.iri "http://x/s", 1⟩ (by decide) ⟨.lit "v" "http://x/t", 4⟩ (by decide)

/-! ## Compaction lemmas -/

theorem compactIRI_eq (nss : List Attr) (iri : String) :
    compactIRI nss iri =
      match nss.find? (fun ns => strPfx iri ns.value) with
      | none => (iri, false)
      | some ns =>
        if strTrimPfx iri ns.value = "" then (iri, false)
        else (ns.name.loc ++ ":" ++ strTrimPfx iri ns.value, true) := by
  induction nss with
  | nil => rfl
  | cons ns rest ih =>
    by_cases hp : strPfx iri ns.value
    · simp [compactIRI, hp, List.find?_cons_of_pos]
    · simp [compactIRI, hp, List.find?_cons_of_neg, ih]

theorem compactIRI_nochange (nss : List Attr) (iri : String)
    (h : (compactIRI nss iri).2 = false) : (compactIRI nss iri).1 = iri := by
  rw [compactIRI_eq] at h ⊢
  rcases hf : nss.find? (fun ns => strPfx iri ns.value) with _ | ns
  · rw [hf]
  · rw [hf] at h ⊢
    by_cases hs : strTrimPfx iri ns.value = ""
    · simp [hs]
    · simp [hs] at h

theorem compactIRI_changed (nss : List Attr) (iri : String)
    (h : (compactIRI nss iri).2 = true) :
    ∃ ns ∈ nss, (compactIRI nss iri).1 = ns.name.loc ++ ":" ++ strTrimPfx iri ns.value := by
  induction nss with
  | nil => simp [compactIRI] at h
  | cons ns rest ih =>
    by_cases hp : strPfx iri ns.value
    · by_cases hs : strTrimPfx iri ns.value = ""
      · simp [compactIRI, hp, hs] at h
      · exact ⟨ns, List.mem_cons_self _ _, by simp [compactIRI, hp, hs]⟩
    · have h2 : (compactIRI rest iri).2 = true := by simpa [compactIRI, hp] using h
      obtain ⟨ns2, hm, he⟩ := ih h2
      exact ⟨ns2, List.mem_cons_of_mem _ hm, by simpa [compactIRI, hp] using he⟩

theorem compactIRI_of_nomatch (nss : List Attr) (iri : String)
    (h : ∀ ns ∈ nss, strPfx iri ns.value = false) : compactIRI nss iri = (iri, false) := by
  induction nss with
  | nil => rfl
  | cons ns rest ih =>
    have h1 := h ns (List.mem_cons_self _ _)
    have h2 : compactIRI (ns :: rest) iri = compactIRI rest iri := by
      simp [compactIRI, h1]
    rw [h2]
    exact ih (fun x hx => h x (List.mem_cons_of_mem _ hx))

theorem str_colon_ne_empty (p s : String) : p ++ ":" ++ s ≠ "" := by
  intro h
  have h2 : (p ++ ":" ++ s).data = ("" : String).data := by rw [h]
  rw [show (p ++ ":" ++ s).data = p.data ++ ':' :: s.data from by simp [String.data_append]] at h2
  simp at h2

theorem noHttpPrefixMatch (p s v : String) (hp : strPfx p "http" = false)
    (hv : strPfx v "http" = true) : strPfx (p ++ ":" ++ s) v = false := by
  rw [Bool.eq_false_iff]
  intro hT
  have hvx : v.data <+: (p ++ ":" ++ s).data := List.isPrefixOf_iff_prefix.mp hT
  have hhv : ("http" : String).data <+: v.data := List.isPrefixOf_iff_prefix.mp hv
  have hhx : ("http" : String).data <+: (p ++ ":" ++ s).data := hhv.trans hvx
  have hdata : (p ++ ":" ++ s).data = p.data ++ ':' :: s.data := by
    simp [String.data_append]
  rw [hdata] at hhx
  have hnp : ¬ (("http" : String).data <+: p.data) := by
    intro hc
    rw [Bool.eq_false_iff] at hp
    have hcb := List.isPrefixOf_iff_prefix.mpr hc
    exact hp hcb
  by_cases hlen : 4 ≤ p.data.length
  · exact hnp (List.prefix_of_prefix_length_le hhx
      (List.prefix_append p.data (':' :: s.data)) (by simpa using hlen))
  · push_neg at hlen
    obtain ⟨r, hr⟩ := hhx
    have h1 : (p.data ++ ':' :: s.data)[p.data.length]? = some ':' := by
      rw [List.getElem?_append_right (le_refl _)]
      simp
    have h2 : (p.data ++ ':' :: s.data)[p.data.length]?
        = (("http" : String).data)[p.data.length]? := by
      rw [← hr]
      rw [List.getElem?_append_left (by simpa using hlen)]
    have h3 : (("http" : String).data)[p.data.length]? = some ':' := by
      rw [← h2]; exact h1
    have h4 : ∀ k, k < 4 → (("http" : String).data)[k]? ≠ some ':' := by decide
    exact h4 p.data.length hlen h3

theorem compactTerm_uid (nss : List Attr) (t : Term) : (compactTerm nss t).uid = t.uid := by
  rcases t with ⟨d, uid⟩
  cases d with
  | iri text =>
    by_cases h : (compactIRI nss text).2 <;> simp [compactTerm, h]
  | lit text qual =>
    by_cases hq : qual = ""
    · simp [compactTerm, hq]
    · by_cases h : (compactIRI nss qual).2 <;> simp [compactTerm, hq, h]
  | blank l => simp [compactTerm]

/-! ## Claim C6 -/

/-- C6: compaction scans the table in order and acts on the first entry
whose value is a textual prefix of the text: no matching entry leaves the
IRI unchanged; a first match consuming the whole text leaves it unchanged;
otherwise the term is rewritten to prefix:remainder with the non-empty
remainder.  An IRI term has its text compacted; a literal term with a
non-empty datatype has its datatype compacted the same way. -/
theorem compact_first_match_rule (nss : List Attr) (iri : String) :
    (nss.find? (fun ns => strPfx iri ns.value) = none → compactIRI nss iri = (iri, false))
    ∧ (∀ ns, nss.find? (fun ns => strPfx iri ns.value) = some ns →
        strTrimPfx iri ns.value = "" → compactIRI nss iri = (iri, false))
    ∧ (∀ ns, nss.find? (fun ns => strPfx iri ns.value) = some ns →
        strTrimPfx iri ns.value ≠ "" →
        compactIRI nss iri = (ns.name.loc ++ ":" ++ strTrimPfx iri ns.value, true))
    ∧ (∀ text uid, compactTerm nss ⟨.iri text, uid⟩ = ⟨.iri (compactIRI nss text).1, uid⟩)
    ∧ (∀ text qual uid, qual ≠ "" →
        compactTerm nss ⟨.lit text qual, uid⟩ = ⟨.lit text (compactIRI nss qual).1, uid⟩) := by
  refine ⟨?_, ?_, ?_, ?_, ?_⟩
  · intro h; rw [compactIRI_eq, h]
  · intro ns hf hs; rw [compactIRI_eq, hf]; simp [hs]
  · intro ns hf hs; rw [compactIRI_eq, hf]; simp [hs]
  · intro text uid
    by_cases h : (compactIRI nss text).2
    · simp [compactTerm, h]
    · simp [compactTerm, h, compactIRI_nochange nss text (by simpa using h)]
  · intro text qual uid hq
    by_cases h : (compactIRI nss qual).2
    · simp [compactTerm, hq, h]
    · simp [compactTerm, hq, h, compactIRI_nochange nss qual (by simpa using h)]

/-- Witness for C6: the longest matching namespace entry rewrites a GO
term IRI to its prefixed form. -/
theorem compact_first_match_rule_witness :
    compactIRI goodNss "http://purl.obolibrary.org/obo/GO_0001" = ("go:0001", true) := by
  have h := (compact_first_match_rule goodNss "http://purl.obolibrary.org/obo/GO_0001").2.2.1
    ⟨⟨"xmlns", "go"⟩, "http://purl.obolibrary.org/obo/GO_"⟩ (by decide) (by decide)
  rw [h]
  decide

/-! ## Claim C7 -/

/-- C7 counterexample: with the (length-sorted) namespace table badNss,
whose second value matches the output of the first, compacting the
already-compacted term changes it again, so compaction as implemented is
not idempotent for every term. -/
theorem compact_not_idempotent_cex :
    compactTerm badNss (compactTerm badNss ⟨.iri "http://x/yz", 7⟩)
      ≠ compactTerm badNss ⟨.iri "http://x/yz", 7⟩ := by decide

/-- C7 amended: compaction is idempotent whenever no namespace value can
match a compacted output again; in particular whenever every namespace
value starts with http while no namespace prefix name does, which holds
for the RDF/XML namespace tables of the intended inputs. -/
theorem compact_idempotent_http (nss : List Attr)
    (hv : ∀ ns ∈ nss, strPfx ns.value "http" = true)
    (hp : ∀ ns ∈ nss, strPfx ns.name.loc "http" = false)
    (t : Term) :
    compactTerm nss (compactTerm nss t) = compactTerm nss t := by
  have key : ∀ iri : String, (compactIRI nss iri).2 = true →
      compactIRI nss (compactIRI nss iri).1 = ((compactIRI nss iri).1, false) := by
    intro iri hch
    obtain ⟨ns, hm, he⟩ := compactIRI_changed nss iri hch
    rw [he]
    refine compactIRI_of_nomatch _ _ ?_
    intro ns2 hm2
    exact noHttpPrefixMatch _ _ _ (hp ns hm) (hv ns2 hm2)
  have keyne : ∀ iri : String, (compactIRI nss iri).2 = true → (compactIRI nss iri).1 ≠ "" := by
    intro iri hch
    obtain ⟨ns, _, he⟩ := compactIRI_changed nss iri hch
    rw [he]
    exact str_colon_ne_empty _ _
  rcases t with ⟨d, uid⟩
  cases d with
  | iri text =>
    by_cases hch : (compactIRI nss text).2
    · have h1 : compactTerm nss ⟨.iri text, uid⟩ = ⟨.iri (compactIRI nss text).1, uid⟩ := by
        simp [compactTerm, hch]
      rw [h1]
      simp [compactTerm, key text hch]
    · have h1 : compactTerm nss ⟨.iri text, uid⟩ = ⟨.iri text, uid⟩ := by
        simp [compactTerm, hch]
      rw [h1]
      exact h1
  | lit text qual =>
    by_cases hq : qual = ""
    · have h1 : compactTerm nss ⟨.lit text qual, uid⟩ = ⟨.lit text qual, uid⟩ := by
        simp [compactTerm, hq]
      rw [h1]
      exact h1
    · by_cases hch : (compactIRI nss qual).2
      · have h1 : compactTerm nss ⟨.lit text qual, uid⟩
            = ⟨.lit text (compactIRI nss qual).1, uid⟩ := by
          simp [compactTerm, hq, hch]
        rw [h1]
        simp [compactTerm, keyne qual hch, key qual hch]
      · have h1 : compactTerm nss ⟨.lit text qual, uid⟩ = ⟨.lit text qual, uid⟩ := by
          simp [compactTerm, hq, hch]
        rw [h1]
        exact h1
  | blank l =>
    have h1 : compactTerm nss ⟨.blank l, uid⟩ = ⟨.blank l, uid⟩ := by simp [compactTerm]
    rw [h1]
    exact h1

/-- Witness for C7 amended: a well-formed table and a compacted term. -/
theorem compact_idempotent_http_witness :
    compactTerm goodNss (compactTerm goodNss ⟨.iri "http://purl.obolibrary.org/obo/GO_0001", 5⟩)
      = compactTerm goodNss ⟨.iri "http://purl.obolibrary.org/obo/GO_0001", 5⟩ :=
  compact_idempotent_http goodNss (by decide) (by decide)
    ⟨.iri "http://purl.obolibrary.org/obo/GO_0001", 5⟩

/-! ## Claim C10 -/

/-- C10: compaction copies the UID of each term unchanged, so the
compacted statement stream of UnmarshalLocal carries exactly the same
identifier triples as the raw Unmarshal stream. -/
theorem unmarshalLocal_preserves_uids (nss : List Attr) (st : DecState)
    (input : List Statement) :
    (∀ t : Term, (compactTerm nss t).uid = t.uid)
    ∧ (unmarshalLocalAll st input).map stmtTriple
        = ((unmarshalAll st input).1).map stmtTriple := by
  refine ⟨fun t => compactTerm_uid nss t, ?_⟩
  unfold unmarshalLocalAll
  rw [List.map_map]
  apply List.map_congr_left
  intro s _
  simp [compactStmt, stmtTriple, compactTerm_uid, Function.comp]

/-! ## Counting the RDF-list statements -/

theorem countPred_nil (p : TermData) : countPred p [] = 0 := rfl

theorem countPred_append (p : TermData) (l₁ l₂ : List Statement) :
    countPred p (l₁ ++ l₂) = countPred p l₁ + countPred p l₂ :=
  List.countP_append _ _ _

theorem countPred_cons (p : TermData) (s : Statement) (l : List Statement) :
    countPred p (s :: l) = countPred p l + if s.predicate.data = p then 1 else 0 := by
  simp [countPred, List.countP_cons]

theorem countPred_emitClaim (p : TermData) (subj : Term) (r : RdfDataType)
    (h : TermData.iri (r.name.space ++ r.name.loc) ≠ p) :
    countPred p (emitClaim subj r.claim) = 0 := by
  by_cases h1 : trimSpace r.resource ≠ ""
  · simp [RdfDataType.claim, h1, emitClaim, claimObj, countPred, term0, h]
  · by_cases h2 : trimSpace r.datatype ≠ ""
    · simp [RdfDataType.claim, h1, h2, emitClaim, claimObj, countPred, term0, h]
    · simp [RdfDataType.claim, h1, h2, emitClaim, claimObj, countPred]

theorem restStmts_append (l₁ l₂ : List Statement) :
    restStmts (l₁ ++ l₂) = restStmts l₁ ++ restStmts l₂ :=
  List.filter_append _ _

theorem restStmts_eq_nil_of_countPred (l : List Statement)
    (h : countPred rdfRest.data l = 0) : restStmts l = [] := by
  have h2 : (l.filter (fun s => s.predicate.data == rdfRest.data)).length = 0 := by
    rw [← List.countP_eq_length_filter]
    exact h
  exact List.length_eq_zero.mp h2

theorem restriction_collect_counts (hsh : String → String) (r : Restriction) (about : String)
    (h : wellNamedR r) :
    countPred rdfFirst.data (r.collect hsh about firstName) = 1
    ∧ countPred rdfRest.data (r.collect hsh about firstName) = 0 := by
  obtain ⟨hop, hsv⟩ := h
  have hcol : r.collect hsh about firstName
      = [⟨(if isValidIRI about then term0 (.iri about) else term0 (.blank about)),
          term0 (.iri (firstName.space ++ firstName.loc)),
          term0 (.blank (restrictionLabel hsh r about firstName))⟩,
         ⟨term0 (.blank (restrictionLabel hsh r about firstName)), rdfType,
          term0 (.iri (r.name.space ++ r.name.loc))⟩]
        ++ emitClaim (term0 (.blank (restrictionLabel hsh r about firstName))) r.onProperty.claim
        ++ emitClaim (term0 (.blank (restrictionLabel hsh r about firstName)))
            r.someValuesFrom.claim := by
    simp [Restriction.collect, restrictionLabel, blankLabel]
  constructor
  · rw [hcol, countPred_append, countPred_append, countPred_cons, countPred_cons,
      countPred_nil, countPred_emitClaim _ _ _ hop.1, countPred_emitClaim _ _ _ hsv.1]
    dsimp only
    decide
  · rw [hcol, countPred_append, countPred_append, countPred_cons, countPred_cons,
      countPred_nil, countPred_emitClaim _ _ _ hop.2, countPred_emitClaim _ _ _ hsv.2]
    dsimp only
    decide

theorem countPred_singleton (p : TermData) (s : Statement) :
    countPred p [s] = if s.predicate.data = p then 1 else 0 := by
  rw [countPred_cons, countPred_nil, Nat.zero_add]

theorem claimObj_description (d : Description) (h : d.about ≠ "") :
    claimObj d.claim = some (.iri d.about) := by
  simp [Description.claim, h, claimObj]

theorem getLast?_cons_of_ne_nil {α : Type} (a : α) (l : List α) (h : l ≠ []) :
    (a :: l).getLast? = l.getLast? := by
  rcases l with _ | ⟨b, t⟩
  · exact absurd rfl h
  · exact List.getLast?_cons_cons ..

theorem interLoop_counts (hsh : String → String) (ds : List Description) :
    ∀ (rs : List Restriction) (iLabel dLabel : String),
      rs.length = ds.length → (∀ d ∈ ds, d.about ≠ "") → (∀ r ∈ rs, wellNamedR r) →
      countPred rdfFirst.data (interLoop hsh iLabel dLabel ds rs) = 2 * ds.length
      ∧ countPred rdfRest.data (interLoop hsh iLabel dLabel ds rs) = 2 * ds.length := by
  induction ds with
  | nil =>
    intro rs iLabel dLabel _ _ _
    simp [interLoop, countPred_nil]
  | cons d ds ih =>
    intro rs iLabel dLabel hlen hab hwn
    rcases rs with _ | ⟨r, rs⟩
    · simp at hlen
    have habd : d.about ≠ "" := hab d (List.mem_cons_self _ _)
    have hco := claimObj_description d habd
    have hrc := restriction_collect_counts hsh r (blankLabel hsh [iLabel])
      (hwn r (List.mem_cons_self _ _))
    have c1 : (if rdfFirst.data = rdfFirst.data then 1 else 0) = 1 := by decide
    have c2 : (if rdfRest.data = rdfFirst.data then 1 else 0) = 0 := by decide
    have c3 : (if rdfFirst.data = rdfRest.data then 1 else 0) = 0 := by decide
    have c4 : (if rdfRest.data = rdfRest.data then 1 else 0) = 1 := by decide
    rcases ds with _ | ⟨d2, ds2⟩
    · have hred : interLoop hsh iLabel dLabel [d] (r :: rs)
          = [⟨term0 (.blank iLabel), rdfFirst, term0 (.iri d.about)⟩]
            ++ [⟨term0 (.blank iLabel), rdfRest, term0 (.blank (blankLabel hsh [iLabel]))⟩]
            ++ r.collect hsh (blankLabel hsh [iLabel]) firstName
            ++ [⟨term0 (.blank (blankLabel hsh [iLabel])), rdfRest, rdfNil⟩] := by
        simp [interLoop, hco]
      constructor
      · rw [hred, countPred_append, countPred_append, countPred_append,
          countPred_singleton, countPred_singleton, countPred_singleton, hrc.1]
        dsimp only
        rw [c1, c2]
        rfl
      · rw [hred, countPred_append, countPred_append, countPred_append,
          countPred_singleton, countPred_singleton, countPred_singleton, hrc.2]
        dsimp only
        rw [c3, c4]
        rfl
    · have hred : interLoop hsh iLabel dLabel (d :: d2 :: ds2) (r :: rs)
          = [⟨term0 (.blank iLabel), rdfFirst, term0 (.iri d.about)⟩]
            ++ [⟨term0 (.blank iLabel), rdfRest, term0 (.blank (blankLabel hsh [iLabel]))⟩]
            ++ r.collect hsh (blankLabel hsh [iLabel]) firstName
            ++ (⟨term0 (.blank (blankLabel hsh [iLabel])), rdfRest,
                  term0 (.blank (blankLabel hsh [blankLabel hsh [iLabel]]))⟩
                :: interLoop hsh (blankLabel hsh [blankLabel hsh [iLabel]])
                    (blankLabel hsh [d.name.space, d.name.loc, iLabel, d.about, dLabel])
                    (d2 :: ds2) rs) := by
        simp [interLoop, hco]
      obtain ⟨ihf, ihr⟩ := ih rs (blankLabel hsh [blankLabel hsh [iLabel]])
        (blankLabel hsh [d.name.space, d.name.loc, iLabel, d.about, dLabel])
        (by simpa using hlen)
        (fun x hx => hab x (List.mem_cons_of_mem _ hx))
        (fun x hx => hwn x (List.mem_cons_of_mem _ hx))
      constructor
      · rw [hred, countPred_append, countPred_append, countPred_append,
          countPred_singleton, countPred_singleton, countPred_cons, hrc.1, ihf]
        dsimp only
        rw [c1, c2]
        simp [List.length_cons]
        ring
      · rw [hred, countPred_append, countPred_append, countPred_append,
          countPred_singleton, countPred_singleton, countPred_cons, hrc.2, ihr]
        dsimp only
        rw [c3, c4]
        simp [List.length_cons]
        ring

theorem interLoop_lastRest (hsh : String → String) (ds : List Description) :
    ∀ (rs : List Restriction) (iLabel dLabel : String),
      rs.length = ds.length → (∀ r ∈ rs, wellNamedR r) → ds ≠ [] →
      lastRestObj (interLoop hsh iLabel dLabel ds rs) = some rdfNil.data := by
  induction ds with
  | nil => intro _ _ _ _ _ h; exact absurd rfl h
  | cons d ds ih =>
    intro rs iLabel dLabel hlen hwn _
    rcases rs with _ | ⟨r, rs⟩
    · simp at hlen
    have hcr : restStmts (r.collect hsh (blankLabel hsh [iLabel]) firstName) = [] :=
      restStmts_eq_nil_of_countPred _
        (restriction_collect_counts hsh r _ (hwn r (List.mem_cons_self _ _))).2
    have hbne : (rdfFirst.data == rdfRest.data) = false := by decide
    have hbeq : (rdfRest.data == rdfRest.data) = true := by decide
    have hfp : ∀ o : TermData,
        restStmts [(⟨term0 (.blank iLabel), rdfFirst, term0 o⟩ : Statement)] = [] := by
      intro o
      simp [restStmts, List.filter, hbne]
    rcases ds with _ | ⟨d2, ds2⟩
    · have hred : interLoop hsh iLabel dLabel [d] (r :: rs)
          = (match claimObj d.claim with
              | none => []
              | some o => [(⟨term0 (.blank iLabel), rdfFirst, term0 o⟩ : Statement)])
            ++ [⟨term0 (.blank iLabel), rdfRest, term0 (.blank (blankLabel hsh [iLabel]))⟩]
            ++ r.collect hsh (blankLabel hsh [iLabel]) firstName
            ++ [⟨term0 (.blank (blankLabel hsh [iLabel])), rdfRest, rdfNil⟩] := by
        rcases hcd : claimObj d.claim with _ | o <;> simp [interLoop, hcd]
      rw [hred]
      unfold lastRestObj
      rw [restStmts_append, restStmts_append, restStmts_append, hcr]
      have hfront : restStmts (match claimObj d.claim with
          | none => []
          | some o => [(⟨term0 (.blank iLabel), rdfFirst, term0 o⟩ : Statement)]) = [] := by
        rcases claimObj d.claim with _ | o
        · rfl
        · exact hfp o
      rw [hfront]
      simp [restStmts, List.filter, hbeq]
    · have hred : interLoop hsh iLabel dLabel (d :: d2 :: ds2) (r :: rs)
          = (match claimObj d.claim with
              | none => []
              | some o => [(⟨term0 (.blank iLabel), rdfFirst, term0 o⟩ : Statement)])
            ++ [⟨term0 (.blank iLabel), rdfRest, term0 (.blank (blankLabel hsh [iLabel]))⟩]
            ++ r.collect hsh (blankLabel hsh [iLabel]) firstName
            ++ (⟨term0 (.blank (blankLabel hsh [iLabel])), rdfRest,
                  term0 (.blank (blankLabel hsh [blankLabel hsh [iLabel]]))⟩
                :: interLoop hsh (blankLabel hsh [blankLabel hsh [iLabel]])
                    (blankLabel hsh [d.name.space, d.name.loc, iLabel, d.about, dLabel])
                    (d2 :: ds2) rs) := by
        rcases hcd : claimObj d.claim with _ | o <;> simp [interLoop, hcd]
      have hihr := ih rs (blankLabel hsh [blankLabel hsh [iLabel]])
        (blankLabel hsh [d.name.space, d.name.loc, iLabel, d.about, dLabel])
        (by simpa using hlen)
        (fun x hx => hwn x (List.mem_cons_of_mem _ hx))
        (by simp)
      have hne : restStmts (interLoop hsh (blankLabel hsh [blankLabel hsh [iLabel]])
          (blankLabel hsh [d.name.space, d.name.loc, iLabel, d.about, dLabel])
          (d2 :: ds2) rs) ≠ [] := by
        intro hnil
        unfold lastRestObj at hihr
        rw [hnil] at hihr
        simp at hihr
      have hfront : restStmts (match claimObj d.claim with
          | none => []
          | some o => [(⟨term0 (.blank iLabel), rdfFirst, term0 o⟩ : Statement)]) = [] := by
        rcases claimObj d.claim with _ | o
        · rfl
        · exact hfp o
      have htot : restStmts (interLoop hsh iLabel dLabel (d :: d2 :: ds2) (r :: rs))
          = ⟨term0 (.blank iLabel), rdfRest, term0 (.blank (blankLabel hsh [iLabel]))⟩
            :: ⟨term0 (.blank (blankLabel hsh [iLabel])), rdfRest,
                 term0 (.blank (blankLabel hsh [blankLabel hsh [iLabel]]))⟩
            :: restStmts (interLoop hsh (blankLabel hsh [blankLabel hsh [iLabel]])
                (blankLabel hsh [d.name.space, d.name.loc, iLabel, d.about, dLabel])
                (d2 :: ds2) rs) := by
        rw [hred, restStmts_append, restStmts_append, restStmts_append, hcr, hfront]
        simp [restStmts, List.filter_cons, hbeq]
      unfold lastRestObj
      rw [htot, getLast?_cons_of_ne_nil _ _ (List.cons_ne_nil _ _),
        getLast?_cons_of_ne_nil _ _ hne]
      unfold lastRestObj at hihr
      exact hihr

theorem pcaLoop_counts (hsh : String → String) (ds : List Description) :
    ∀ label : String,
      countPred rdfFirst.data (pcaLoop hsh label ds) = ds.length
      ∧ countPred rdfRest.data (pcaLoop hsh label ds) = ds.length := by
  induction ds with
  | nil => intro label; simp [pcaLoop, countPred_nil]
  | cons d ds ih =>
    intro label
    have c1 : (if rdfFirst.data = rdfFirst.data then 1 else 0) = 1 := by decide
    have c2 : (if rdfRest.data = rdfFirst.data then 1 else 0) = 0 := by decide
    have c3 : (if rdfFirst.data = rdfRest.data then 1 else 0) = 0 := by decide
    have c4 : (if rdfRest.data = rdfRest.data then 1 else 0) = 1 := by decide
    rcases ds with _ | ⟨d2, ds2⟩
    · have hred : pcaLoop hsh label [d]
          = [⟨term0 (.blank label), rdfFirst, term0 (.iri d.about)⟩,
             ⟨term0 (.blank label), rdfRest, rdfNil⟩] := by
        simp [pcaLoop]
      constructor
      · rw [hred, countPred_cons, countPred_cons, countPred_nil]
        dsimp only
        rw [c1, c2]
        rfl
      · rw [hred, countPred_cons, countPred_cons, countPred_nil]
        dsimp only
        rw [c3, c4]
        rfl
    · have hred : pcaLoop hsh label (d :: d2 :: ds2)
          = ⟨term0 (.blank label), rdfFirst, term0 (.iri d.about)⟩
            :: ⟨term0 (.blank label), rdfRest, term0 (.blank (blankLabel hsh [label]))⟩
            :: pcaLoop hsh (blankLabel hsh [label]) (d2 :: ds2) := by
        simp [pcaLoop]
      obtain ⟨ihf, ihr⟩ := ih (blankLabel hsh [label])
      constructor
      · rw [hred, countPred_cons, countPred_cons, ihf]
        dsimp only
        rw [c1, c2]
        simp [List.length_cons]
      · rw [hred, countPred_cons, countPred_cons, ihr]
        dsimp only
        rw [c3, c4]
        simp [List.length_cons]

theorem pcaLoop_lastRest (hsh : String → String) (ds : List Description) :
    ∀ label : String, ds ≠ [] → lastRestObj (pcaLoop hsh label ds) = some rdfNil.data := by
  induction ds with
  | nil => intro _ h; exact absurd rfl h
  | cons d ds ih =>
    intro label _
    have hbne : (rdfFirst.data == rdfRest.data) = false := by decide
    have hbeq : (rdfRest.data == rdfRest.data) = true := by decide
    rcases ds with _ | ⟨d2, ds2⟩
    · simp [pcaLoop, lastRestObj, restStmts, List.filter, hbne, hbeq]
    · have hred : pcaLoop hsh label (d :: d2 :: ds2)
          = ⟨term0 (.blank label), rdfFirst, term0 (.iri d.about)⟩
            :: ⟨term0 (.blank label), rdfRest, term0 (.blank (blankLabel hsh [label]))⟩
            :: pcaLoop hsh (blankLabel hsh [label]) (d2 :: ds2) := by
        simp [pcaLoop]
      have hihr := ih (blankLabel hsh [label]) (by simp)
      have hne : restStmts (pcaLoop hsh (blankLabel hsh [label]) (d2 :: ds2)) ≠ [] := by
        intro hnil
        unfold lastRestObj at hihr
        rw [hnil] at hihr
        simp at hihr
      have htot : restStmts (pcaLoop hsh label (d :: d2 :: ds2))
          = ⟨term0 (.blank label), rdfRest, term0 (.blank (blankLabel hsh [label]))⟩
            :: restStmts (pcaLoop hsh (blankLabel hsh [label]) (d2 :: ds2)) := by
        rw [hred]
        simp [restStmts, List.filter_cons, hbne, hbeq]
      unfold lastRestObj
      rw [htot, getLast?_cons_of_ne_nil _ _ hne]
      unfold lastRestObj at hihr
      exact hihr

theorem pca_collect_head (hsh : String → String) (about : String) (c : PropertyChainAxiom) :
    PropertyChainAxiom.collect hsh (some c) about
      = ⟨term0 (.iri about), term0 (.iri (c.name.space ++ c.name.loc)),
          term0 (.blank (blankLabel hsh [about, c.name.space ++ c.name.loc]))⟩
        :: pcaLoop hsh (blankLabel hsh [about, c.name.space ++ c.name.loc]) c.description := by
  simp [PropertyChainAxiom.collect]

theorem pca_collect_counts (hsh : String → String) (about : String) (c : PropertyChainAxiom)
    (hc : chainSafe c.name) :
    countPred rdfFirst.data (PropertyChainAxiom.collect hsh (some c) about)
      = c.description.length
    ∧ countPred rdfRest.data (PropertyChainAxiom.collect hsh (some c) about)
      = c.description.length := by
  obtain ⟨hf, hr⟩ := pcaLoop_counts hsh c.description
    (blankLabel hsh [about, c.name.space ++ c.name.loc])
  constructor
  · rw [pca_collect_head, countPred_cons, hf]
    dsimp only [term0]
    rw [if_neg hc.1]
    exact Nat.add_zero _
  · rw [pca_collect_head, countPred_cons, hr]
    dsimp only [term0]
    rw [if_neg hc.2]
    exact Nat.add_zero _


theorem pca_collect_lastRest (hsh : String → String) (about : String) (c : PropertyChainAxiom)
    (hc : chainSafe c.name) (hne : c.description ≠ []) :
    lastRestObj (PropertyChainAxiom.collect hsh (some c) about) = some rdfNil.data := by
  have hcf : (TermData.iri (c.name.space ++ c.name.loc) == rdfRest.data) = false := by
    rw [beq_eq_false_iff_ne]
    exact hc.2
  have hskip : restStmts (PropertyChainAxiom.collect hsh (some c) about)
      = restStmts (pcaLoop hsh (blankLabel hsh [about, c.name.space ++ c.name.loc])
          c.description) := by
    rw [pca_collect_head]
    simp [restStmts, List.filter_cons, term0, hcf]
  have hlast := pcaLoop_lastRest hsh c.description
    (blankLabel hsh [about, c.name.space ++ c.name.loc]) hne
  unfold lastRestObj at hlast ⊢
  rw [hskip]
  exact hlast

/-! ## Claim C3 -/

/-- C3 counterexample: an intersection-of list holding a single
description member and no restriction yields one rdf first statement but
two rdf rest statements, refuting the claimed n-first/n-rest law for the
intersection encoding (here n = 1 under any reading of the list length,
while lists of paired members satisfy 2n of each, as proved in the amended
theorem). -/
theorem rdf_list_encoding_cex :
    countPred rdfFirst.data
        (equivalentClassesCollect idh cexEC "http://x/GO1" ⟨owlNS, "Class"⟩) = 1
    ∧ countPred rdfRest.data
        (equivalentClassesCollect idh cexEC "http://x/GO1" ⟨owlNS, "Class"⟩) = 2 := by
  decide

/-- C3 amended: a property chain of n members emits exactly n rdf first
and n rdf rest statements and its final rdf rest statement targets rdf
nil; the intersection-of encoding, which interleaves a restriction cell
after every description cell, emits exactly 2d rdf first and 2d rdf rest
statements for d descriptions (each carrying an about resource) paired
with d restrictions — the GO document shape, with member count n = 2d —
and its final rdf rest statement targets rdf nil. -/
theorem rdf_list_encoding (hsh : String → String) (about : String) (c : PropertyChainAxiom)
    (hc : chainSafe c.name) (ds : List Description) (rs : List Restriction)
    (iLabel dLabel : String) (hlen : rs.length = ds.length)
    (hab : ∀ d ∈ ds, d.about ≠ "") (hwn : ∀ r ∈ rs, wellNamedR r) :
    (countPred rdfFirst.data (PropertyChainAxiom.collect hsh (some c) about)
        = c.description.length
      ∧ countPred rdfRest.data (PropertyChainAxiom.collect hsh (some c) about)
        = c.description.length
      ∧ (c.description ≠ [] →
          lastRestObj (PropertyChainAxiom.collect hsh (some c) about) = some rdfNil.data))
    ∧ (countPred rdfFirst.data (interLoop hsh iLabel dLabel ds rs) = 2 * ds.length
      ∧ countPred rdfRest.data (interLoop hsh iLabel dLabel ds rs) = 2 * ds.length
      ∧ (ds ≠ [] → lastRestObj (interLoop hsh iLabel dLabel ds rs) = some rdfNil.data)) := by
  obtain ⟨hpf, hpr⟩ := pca_collect_counts hsh about c hc
  obtain ⟨hif, hir⟩ := interLoop_counts hsh ds rs iLabel dLabel hlen hab hwn
  exact ⟨⟨hpf, hpr, fun h => pca_collect_lastRest hsh about c hc h⟩,
    ⟨hif, hir, fun h => interLoop_lastRest hsh ds rs iLabel dLabel hlen hwn h⟩⟩

/-- Witness for C3 amended at a concrete chain and a concrete paired
intersection list. -/
theorem rdf_list_encoding_witness :
    countPred rdfFirst.data (PropertyChainAxiom.collect idh (some wPCA) "http://x/OP") = 2
    ∧ countPred rdfRest.data (interLoop idh "L0" "" [wDescr] [wRestr]) = 2 := by
  have h := rdf_list_encoding idh "http://x/OP" wPCA (by decide) [wDescr] [wRestr] "L0" ""
    (by decide) (by decide) (by decide)
  exact ⟨h.1.1.trans (by decide), h.2.2.1.trans (by decide)⟩

/-! ## Claim C4 -/

/-- C4: a Restriction with an onProperty resource P and a someValuesFrom
resource V, anchored at a valid about IRI, yields exactly the four
statements link, type, onProperty and someValuesFrom, all sharing the one
blank node whose label is the hash of the element qualified name, the
anchor, the parent name and the onProperty and someValuesFrom values; the
label is a function of exactly those inputs, so identical inputs always
yield the identical label. -/
theorem restriction_collect_scenario (hsh : String → String) (r r2 : Restriction)
    (about about2 : String) (inn inn2 : XmlName)
    (hP : trimSpace r.onProperty.resource ≠ "") (hV : trimSpace r.someValuesFrom.resource ≠ "")
    (hA : isValidIRI about = true) :
    (r.collect hsh about inn =
      [⟨term0 (.iri about), term0 (.iri (inn.space ++ inn.loc)),
        term0 (.blank (restrictionLabel hsh r about inn))⟩,
       ⟨term0 (.blank (restrictionLabel hsh r about inn)), rdfType,
        term0 (.iri (r.name.space ++ r.name.loc))⟩,
       ⟨term0 (.blank (restrictionLabel hsh r about inn)),
        term0 (.iri (r.onProperty.name.space ++ r.onProperty.name.loc)),
        term0 (.iri r.onProperty.resource)⟩,
       ⟨term0 (.blank (restrictionLabel hsh r about inn)),
        term0 (.iri (r.someValuesFrom.name.space ++ r.someValuesFrom.name.loc)),
        term0 (.iri r.someValuesFrom.resource)⟩])
    ∧ (r2.name = r.name → about2 = about → inn2 = inn
        → r2.onProperty.resource = r.onProperty.resource
        → r2.onProperty.text = r.onProperty.text
        → r2.someValuesFrom.resource = r.someValuesFrom.resource
        → r2.someValuesFrom.text = r.someValuesFrom.text
        → restrictionLabel hsh r2 about2 inn2 = restrictionLabel hsh r about inn) := by
  constructor
  · simp [Restriction.collect, restrictionLabel, hA, emitClaim, claimObj,
      RdfDataType.claim, hP, hV]
  · intro h1 h2 h3 h4 h5 h6 h7
    simp [restrictionLabel, h1, h2, h3, h4, h5, h6, h7]

/-- Witness for C4 at a concrete restriction under a subClassOf parent. -/
theorem restriction_collect_scenario_witness :
    Restriction.collect idh wRestr "http://x/C" ⟨rdfsNS, "subClassOf"⟩ =
      [⟨term0 (.iri "http://x/C"), term0 (.iri (rdfsNS ++ "subClassOf")),
        term0 (.blank (restrictionLabel idh wRestr "http://x/C" ⟨rdfsNS, "subClassOf"⟩))⟩,
       ⟨term0 (.blank (restrictionLabel idh wRestr "http://x/C" ⟨rdfsNS, "subClassOf"⟩)),
        rdfType, term0 (.iri (owlNS ++ "Restriction"))⟩,
       ⟨term0 (.blank (restrictionLabel idh wRestr "http://x/C" ⟨rdfsNS, "subClassOf"⟩)),
        term0 (.iri (owlNS ++ "onProperty")), term0 (.iri "http://x/p")⟩,
       ⟨term0 (.blank (restrictionLabel idh wRestr "http://x/C" ⟨rdfsNS, "subClassOf"⟩)),
        term0 (.iri (owlNS ++ "someValuesFrom")), term0 (.iri "http://x/v")⟩] := by
  have h := (restriction_collect_scenario idh wRestr wRestr "http://x/C" "http://x/C"
    ⟨rdfsNS, "subClassOf"⟩ ⟨rdfsNS, "subClassOf"⟩ (by decide) (by decide) (by decide)).1
  rw [h]
  decide

/-! ## Claim C5 -/

/-- C5 counterexample: a Class with about and a single label child whose
text is Foo but which carries no datatype attribute yields exactly one
statement, the type statement — the label child emits nothing, so the
claimed two-statement output with a Literal Foo object does not hold. -/
theorem class_label_scenario_cex :
    ClassElem.collect idh
        (soloLabelClass ⟨owlNS, "Class"⟩ ⟨rdfsNS, "label"⟩ "http://x/C" "Foo" "")
      = [⟨term0 (.iri "http://x/C"), rdfType, term0 (.iri (owlNS ++ "Class"))⟩] := by
  decide

/-- C5 amended: a Class element with an about IRI and exactly one label
child with text Foo and a (non-blank) datatype D yields exactly two
statements, the type statement and the label statement with object
Literal Foo typed D; without a datatype or resource the label child yields
no statement. -/
theorem class_label_scenario (hsh : String → String) (clsName labelName : XmlName)
    (about text dt : String) (hdt : trimSpace dt ≠ "") :
    ClassElem.collect hsh (soloLabelClass clsName labelName about text dt) =
      [⟨term0 (.iri about), rdfType, term0 (.iri (clsName.space ++ clsName.loc))⟩,
       ⟨term0 (.iri about), term0 (.iri (labelName.space ++ labelName.loc)),
        term0 (.lit text dt)⟩] := by
  have h0 : trimSpace "" = "" := by decide
  simp [ClassElem.collect, soloLabelClass, emitClaim, claimObj, RdfDataType.claim,
    RdfDataType.empty, labelType, collectFields, ClassElem.scalarFields, claimStmts,
    SubClassOf.collectList, equivalentClassesCollect, h0, hdt]

/-- Witness for C5 amended at the concrete GO label shape. -/
theorem class_label_scenario_witness :
    ClassElem.collect idh (soloLabelClass ⟨owlNS, "Class"⟩ ⟨rdfsNS, "label"⟩ "http://x/C" "Foo"
        "http://www.w3.org/2001/XMLSchema#string")
      = [⟨term0 (.iri "http://x/C"), rdfType, term0 (.iri (owlNS ++ "Class"))⟩,
         ⟨term0 (.iri "http://x/C"), term0 (.iri (rdfsNS ++ "label")),
          term0 (.lit "Foo" "http://www.w3.org/2001/XMLSchema#string")⟩] := by
  have h := class_label_scenario idh ⟨owlNS, "Class"⟩ ⟨rdfsNS, "label"⟩ "http://x/C" "Foo"
    "http://www.w3.org/2001/XMLSchema#string" (by decide)
  rw [h]

/-! ## Claim C8 -/

/-- C8: a top-level start element whose local name is outside the
recognized set makes fillBuffer fail fatally (the source panics with a
plain string, which the recover does not convert, so the panic escapes the
decoder), never skipping the element; this outcome is distinct from the
end-of-input signal and from every normal return. -/
theorem fillBuffer_unrecognized_fatal (hsh : String → String) (st : DecState)
    (name : XmlName) (elem : Elem) (rest : List Token)
    (h : name.loc ∉ (["AnnotationProperty", "Axiom", "Class", "ObjectProperty",
        "Ontology", "RDF"] : List String)) :
    (fillBuffer hsh st (Token.start name elem :: rest)).1 = FillOutcome.fatal name
    ∧ (∀ st2 : DecState, FillOutcome.fatal name ≠ FillOutcome.eofSig st2
        ∧ FillOutcome.fatal name ≠ FillOutcome.ok st2) := by
  simp only [List.mem_cons, List.mem_singleton, not_or] at h
  obtain ⟨h1, h2, h3, h4, h5, h6⟩ := h
  refine ⟨?_, fun st2 => ⟨by simp, by simp⟩⟩
  simp [fillBuffer, fillBufferTok, h1, h2, h3, h4, h5, h6]

/-- Witness for C8: a Description element at top level is fatal. -/
theorem fillBuffer_unrecognized_fatal_witness :
    (fillBuffer idh (freshState none)
        (Token.start ⟨rdfSynNS, "Description"⟩ (.rdfRoot []) :: [])).1
      = FillOutcome.fatal ⟨rdfSynNS, "Description"⟩ :=
  (fillBuffer_unrecognized_fatal idh (freshState none) ⟨rdfSynNS, "Description"⟩
    (.rdfRoot []) [] (by decide)).1

/-! ## Claim C9 -/

theorem fillBufferTok_ok_frame (hsh : String → String) (st : DecState) (t : Token)
    (st2 : DecState) (h : fillBufferTok hsh st t = .ok st2) :
    st2.ids = st.ids ∧ st2.seen = st.seen := by
  cases t with
  | start name elem =>
    cases elem with
    | axm a =>
      rcases hax : AxiomElem.collect hsh a with _ | stmts <;>
        simp only [fillBufferTok, hax] at h <;>
        split_ifs at h <;>
        first
          | (injection h with h2; subst h2; exact ⟨rfl, rfl⟩)
          | exact absurd h (by simp)
    | ann a =>
      simp only [fillBufferTok] at h
      split_ifs at h <;>
        first
          | (injection h with h2; subst h2; exact ⟨rfl, rfl⟩)
          | exact absurd h (by simp)
    | cls c =>
      simp only [fillBufferTok] at h
      split_ifs at h <;>
        first
          | (injection h with h2; subst h2; exact ⟨rfl, rfl⟩)
          | exact absurd h (by simp)
    | obj o =>
      simp only [fillBufferTok] at h
      split_ifs at h <;>
        first
          | (injection h with h2; subst h2; exact ⟨rfl, rfl⟩)
          | exact absurd h (by simp)
    | ont o =>
      simp only [fillBufferTok] at h
      split_ifs at h <;>
        first
          | (injection h with h2; subst h2; exact ⟨rfl, rfl⟩)
          | exact absurd h (by simp)
    | rdfRoot attrs =>
      simp only [fillBufferTok] at h
      split_ifs at h <;>
        first
          | (injection h with h2; subst h2; exact ⟨rfl, rfl⟩)
          | exact absurd h (by simp)
  | endElement =>
    simp only [fillBufferTok] at h
    injection h with h2; subst h2; exact ⟨rfl, rfl⟩
  | chardata =>
    simp only [fillBufferTok] at h
    injection h with h2; subst h2; exact ⟨rfl, rfl⟩
  | comment =>
    simp only [fillBufferTok] at h
    injection h with h2; subst h2; exact ⟨rfl, rfl⟩
  | directive =>
    simp only [fillBufferTok] at h
    injection h with h2; subst h2; exact ⟨rfl, rfl⟩
  | procInst =>
    simp only [fillBufferTok] at h
    injection h with h2; subst h2; exact ⟨rfl, rfl⟩

theorem collectNS_frame (hsh : String → String) :
    ∀ (toks : List Token) (st st2 : DecState) (rest : List Token),
      collectNS hsh st toks = some (st2, rest) →
      st2.ids = st.ids ∧ st2.seen = st.seen ∧ st2.namespaces.isSome := by
  intro toks
  induction toks with
  | nil =>
    intro st st2 rest h
    simp [collectNS] at h
  | cons t ts ih =>
    intro st st2 rest h
    simp only [collectNS] at h
    rcases hf : fillBufferTok hsh st t with st3 | st3 | nm | _ | _ <;> rw [hf] at h <;>
      dsimp only at h
    · by_cases hns : st3.namespaces.isSome
      · rw [if_pos hns] at h
        obtain ⟨hfr1, hfr2⟩ := fillBufferTok_ok_frame hsh st t st3 hf
        obtain ⟨hst, hrest⟩ := Prod.mk.injEq .. |>.mp (Option.some.inj h)
        subst hst
        exact ⟨hfr1, hfr2, hns⟩
      · rw [if_neg hns] at h
        obtain ⟨hfr1, hfr2⟩ := fillBufferTok_ok_frame hsh st t st3 hf
        obtain ⟨ih1, ih2, ih3⟩ := ih st3 st2 rest h
        exact ⟨ih1.trans hfr1, ih2.trans hfr2, ih3⟩
    · simp at h
    · simp at h
    · simp at h
    · simp at h

/-- C9: a successful Reset leaves the identifier table and the seen-triples
set untouched, empties the string-intern table and the pending statement
buffer, and installs a namespace table newly collected from the new token
stream (the table is re-collected from scratch: Reset first drops the old
one). -/
theorem reset_frame (hsh : String → String) (st : DecState) (toks : List Token)
    (st2 : DecState) (rest : List Token) (h : reset hsh st toks = some (st2, rest)) :
    st2.ids = st.ids ∧ st2.seen = st.seen ∧ st2.strings = [] ∧ st2.buf = []
    ∧ st2.namespaces.isSome := by
  unfold reset at h
  rcases hc : collectNS hsh { st with namespaces := none } toks with _ | ⟨st3, rest3⟩ <;>
    rw [hc] at h
  · exact absurd h (by simp)
  · obtain ⟨hids, hseen, hns⟩ := collectNS_frame hsh toks _ st3 rest3 hc
    obtain ⟨hst, hrest⟩ := Prod.mk.injEq .. |>.mp (Option.some.inj h)
    rw [← hst]
    exact ⟨hids, hseen, rfl, rfl, hns⟩

/-- Witness for C9 at a concrete mid-session state and stream. -/
theorem reset_frame_witness :
    c9res.ids = c9st.ids ∧ c9res.seen = c9st.seen ∧ c9res.strings = [] ∧ c9res.buf = []
    ∧ c9res.namespaces.isSome :=
  reset_frame idh c9st c9toks c9res [] (by decide)

end Smeargol
